import Mathlib

set_option maxHeartbeats 1000000
set_option maxRecDepth 8000

/-!
Verification development for the CSL style rendering engine
(`src/csl/rendering/mod.rs`).

The rendering context (`Context` / its `writing` buffer) is declared outside
the reviewed sources; its provisional-region mechanism, scope stacks and
usage-info accumulator are modelled from the specification (section 4.1 and
section 3).  Everything else — the delimiter/group assembly loop, the Text
renderer, Group and Choose, the branch-condition iterator, and the date
renderers — is translated from the source file.

The buffer is modelled as a list of characters; a provisional-region mark is
the buffer length recorded at push, per the specification's design note
("model marks as plain integers").  Each push/commit/discard/write is also
recorded in an event trace so that the fate of an individual region is
observable in theorems.  Case transforms, quote insertion and formatting
attachment act on presentation metadata only and are modelled as bookkeeping
that leaves the character buffer unchanged; all scenarios proved below use
elements with no case transform, no quotes and no formatting.
-/

namespace Hayagriva

/-- Region lifecycle and write events of the output buffer: a region push at a
given buffer length, a commit or discard of the region with that recorded
mark, and a write of a run of characters. -/
inductive Ev where
  | push (m : Nat)
  | commit (m : Nat)
  | discard (m : Nat)
  | write (s : List Char)
deriving DecidableEq, Repr

/-- Modelled from the spec: the per-Group usage-info accumulator (section 3) —
whether any variable was referenced, whether a referenced variable produced
non-empty output, whether a macro printed non-empty content, and whether a
nested group survived. -/
structure UsageInfo where
  hasVars : Bool := false
  hasNonEmptyVars : Bool := false
  hasUsedMacros : Bool := false
  hasNonEmptyGroup : Bool := false
deriving DecidableEq, Repr

/-- Text-case transforms (`TextCase`); the transforms themselves act on
presentation only and are outside the character-level model. -/
inductive Case where
  | upper | lower | title | sentence | capitalizeFirst | capitalizeAll
deriving DecidableEq, Repr

/-- Formatting value objects carry font flags only; they never change the
characters written, so they are modelled as an opaque unit. -/
abbrev Formatting := Unit

/-- Modelled from the spec: the Output Assembly state (section 4.1) — the
growing buffer, the stack of open provisional-region marks, the usage-info
stack, the formatting/case scope stacks, the quote depth, the period-stripping
toggle, and the instrumentation event trace. -/
structure Writing where
  buf : List Char := []
  marks : List Nat := []
  usage : List UsageInfo := []
  fmts : List Formatting := []
  cases : List (Option Case) := []
  quotes : Nat := 0
  strip : Bool := false
  events : List Ev := []
deriving DecidableEq, Repr

/-- Modelled from the spec: `push_elem` opens a provisional region, recording
the current buffer length as its mark. -/
def pushElem (w : Writing) (_fmt : Formatting) : Writing × Nat :=
  ({ w with marks := w.buf.length :: w.marks,
            events := w.events ++ [Ev.push w.buf.length] }, w.buf.length)

/-- Modelled from the spec: `commit_elem` finalizes formatting/tag metadata
only; the written characters are kept and the region is closed. -/
def commitElem (w : Writing) (m : Nat) : Writing :=
  { w with marks := w.marks.tail, events := w.events ++ [Ev.commit m] }

/-- Modelled from the spec: `discard_elem` truncates the buffer back to the
length recorded at push — full erasure of everything written since. -/
def discardElem (w : Writing) (m : Nat) : Writing :=
  { w with buf := w.buf.take m, marks := w.marks.tail,
           events := w.events ++ [Ev.discard m] }

/-- Modelled from the spec: `last_is_empty` — true iff nothing was written
since the most recent mark. -/
def lastIsEmpty (w : Writing) : Bool :=
  match w.marks with
  | [] => w.buf.isEmpty
  | m :: _ => w.buf.length == m

/-- Period stripping removes full stops from a written run. -/
def stripDot (s : List Char) : List Char := s.filter (fun c => c ≠ '.')

/-- Modelled from the spec: the low-level write primitive; it consults the
period-stripping toggle. -/
def pushStr (w : Writing) (s : String) : Writing :=
  let t := if w.strip then stripDot s.data else s.data
  { w with buf := w.buf ++ t, events := w.events ++ [Ev.write t] }

/-- Optional literal text around non-empty content. -/
structure Affixes where
  pre : Option String := none
  suf : Option String := none
deriving DecidableEq, Repr

/-- Modelled from the spec: `apply_prefix` writes the prefix immediately and
captures the location used later to test emptiness. -/
def applyPre (w : Writing) (a : Affixes) : Writing × Nat :=
  let w := match a.pre with
    | some p => pushStr w p
    | none => w
  (w, w.buf.length)

/-- Modelled from the spec: `apply_suffix` writes the suffix only if the
region is non-empty at suffix time (buffer grew past the captured location). -/
def applySuf (w : Writing) (a : Affixes) (loc : Nat) : Writing :=
  match a.suf with
  | some s => if w.buf.length ≠ loc then pushStr w s else w
  | none => w

/-- Modelled from the spec: formatting scope push (metadata only). -/
def pushFormat (w : Writing) (f : Formatting) : Writing × Nat :=
  ({ w with fmts := f :: w.fmts }, w.fmts.length)

/-- Modelled from the spec: formatting scope pop. -/
def popFormat (w : Writing) (_idx : Nat) : Writing :=
  { w with fmts := w.fmts.tail }

/-- Modelled from the spec: case scope push; the transform is applied to
presentation only, so the character buffer is untouched. -/
def pushCase (w : Writing) (c : Option Case) : Writing × Nat :=
  ({ w with cases := c :: w.cases }, w.cases.length)

/-- Modelled from the spec: case scope pop. -/
def popCase (w : Writing) (_idx : Nat) : Writing :=
  { w with cases := w.cases.tail }

/-- Modelled from the spec: quote scope open (quote characters are
presentation metadata outside this model). -/
def pushQuotes (w : Writing) : Writing := { w with quotes := w.quotes + 1 }

/-- Modelled from the spec: quote scope close. -/
def popQuotes (w : Writing) : Writing := { w with quotes := w.quotes - 1 }

/-- Modelled from the spec: punctuation pulling inside quotes; presentation
metadata outside this model. -/
def mayPullPunctuation (w : Writing) : Writing := w

/-- Modelled from the spec: set the period-stripping toggle. -/
def mayStripPeriods (w : Writing) (b : Bool) : Writing := { w with strip := b }

/-- Modelled from the spec: clear the period-stripping toggle. -/
def stopStrippingPeriods (w : Writing) : Writing := { w with strip := false }

/-- Modelled from the spec: `push_usage_info` opens a fresh per-Group
accumulator. -/
def pushUsageInfo (w : Writing) : Writing :=
  { w with usage := ({} : UsageInfo) :: w.usage }

/-- Modelled from the spec: `pop_usage_info` closes the innermost accumulator
and returns it. -/
def popUsageInfo (w : Writing) : UsageInfo × Writing :=
  (w.usage.headD {}, { w with usage := w.usage.tail })

/-- Modelled from the spec: a renderer that resolves a variable records the
reference — and whether the resolved value is non-empty — in the innermost
open accumulator. -/
def markVarUsage (w : Writing) (valNonEmpty : Bool) : Writing :=
  { w with usage := match w.usage with
      | [] => []
      | u :: us => { u with hasVars := true,
                            hasNonEmptyVars := u.hasNonEmptyVars || valNonEmpty } :: us }

/-- Modelled from the spec: `printed_non_empty_group` reports a surviving
nested group to the innermost open accumulator. -/
def printedNonEmptyGroup (w : Writing) : Writing :=
  { w with usage := match w.usage with
      | [] => []
      | u :: us => { u with hasNonEmptyGroup := true } :: us }

/-- Standard (free-text) variables; the four hyperlinked ones and the year
suffix are distinguished, all others are referred to by name. -/
inductive StdVar where
  | url | doi | pmid | pmcid | yearSuffix
  | other (name : String)
deriving DecidableEq, Repr

/-- A resolved number variable: either a typed numeric value (abstracted to
its rendered string) or a literal string. -/
inductive MaybeTypedNum where
  | typed (val : String)
  | str (s : String)
deriving DecidableEq, Repr

/-- The rendered text of a resolved number variable (`to_str`). -/
def numToStr : MaybeTypedNum → String
  | .typed v => v
  | .str s => s

/-- A structured date: year, optional zero-indexed month and day, and the
approximate flag. -/
structure CslDate where
  year : Int
  month : Option Nat := none
  day : Option Nat := none
  approximate : Bool := false
deriving DecidableEq, Repr

/-- Modelled from the spec: the ibid state supplied by the upstream
cite-position signal. -/
inductive IbidState where
  | different | ibid | ibidWithLocator
deriving DecidableEq, Repr

/-- Whether the ibid state is ibid-with-locator. -/
def IbidState.isIbidWithLocator : IbidState → Bool
  | .ibidWithLocator => true
  | _ => false

/-- The positions a branch condition may test. -/
inductive TestPosition where
  | first | subsequent | ibid | ibidWithLocator | nearNote
deriving DecidableEq, Repr

/-- Grammatical gender used by ordinal-term lookup. -/
inductive Gender where
  | masculine | feminine | neuter
deriving DecidableEq, Repr

/-- The read-only part of the rendering context: value resolvers, term and
ordinal lookup, the disambiguation and cite-position signals, and style/locale
flags.  These are the external interfaces of section 6, supplied as plain
functions. -/
structure Env where
  stdVar : StdVar → Option String := fun _ => none
  numVar : String → Option MaybeTypedNum := fun _ => none
  dateVar : String → Option CslDate := fun _ => none
  nameVarCount : String → Nat := fun _ => 0
  termMonth : Nat → Bool → Option String := fun _ _ => none
  ordinalLookup : Int → Option Gender → Option String := fun _ _ => none
  monthGender : Nat → Option Gender := fun _ => none
  numericOk : String → Bool := fun _ => false
  shouldDisambiguate : Bool := false
  locatorKind : Option String := none
  isFirst : Bool := false
  isNearNote : Bool := false
  ibid : IbidState := .different
  matchesType : String → Bool := fun _ => false
  limitDayOrdinals : Bool := false
  rendersYearSuffixImplicitly : Bool := false
  authorOnly : Bool := false

/-- Whether a resolved standard-variable value is non-empty (used for the
usage-info record). -/
def stdNonEmpty : Option String → Bool
  | some s => !s.data.isEmpty
  | none => false

/-- Whether a resolved number-variable value renders non-empty. -/
def numNonEmpty : Option MaybeTypedNum → Bool
  | some n => !(numToStr n).data.isEmpty
  | none => false

/-- The targets of a Text element that the claims exercise: a standard
variable, a number variable, or a literal value.  (Macro and term targets and
the Number/Label/Names renderers carry no claims and are not embedded.) -/
inductive TextTarget where
  | standard (v : StdVar)
  | number (v : String)
  | value (s : String)
deriving DecidableEq, Repr

/-- A Text rendering element. -/
structure TextElem where
  target : TextTarget
  affixes : Affixes := {}
  quotes : Bool := false
  stripPeriods : Bool := false
  textCase : Option Case := none
deriving DecidableEq, Repr

/-- The variables a branch condition may reference, one per variable kind. -/
inductive CondVar where
  | standard (v : StdVar)
  | number (v : String)
  | date (v : String)
  | name (v : String)
deriving DecidableEq, Repr

/-- Modelled from the spec: the match policy of a Choose branch (section 4.4)
— ALL / ANY / NONE over the yielded booleans. -/
inductive MatchMode where
  | all | anyOf | noneOf
deriving DecidableEq, Repr

/-- Modelled from the spec: reduce the yielded boolean sequence under the
branch's match policy. -/
def matchTest (m : MatchMode) (l : List Bool) : Bool :=
  match m with
  | .all => l.all id
  | .anyOf => l.any id
  | .noneOf => !(l.any id)

/-- A Choose branch condition: the match policy and the seven optional
condition fields, in the fixed field order of `BranchConditionPos`. -/
structure Cond where
  matchMode : MatchMode := .all
  disambiguate : Option Bool := none
  isNumeric : Option (List CondVar) := none
  isUncertainDate : Option (List String) := none
  locator : Option (List String) := none
  position : Option (List TestPosition) := none
  typeIs : Option (List String) := none
  presentVars : Option (List CondVar) := none

/-- The rendering-element tree walked by the engine: Text leaves, Groups with
delimiter-joined children and usage-driven suppression, and conditional
Choose elements. -/
inductive Elem where
  | text (t : TextElem)
  | group (affixes : Affixes) (delimiter : Option String) (children : List Elem)
  | choose (branches : List (Cond × List Elem)) (otherwise : Option (List Elem))
      (delimiter : Option String)

/-- The is-numeric test for one listed variable (`BranchConditionIter`, the
is-numeric arm): a standard variable parses as numeric, a number variable is
typed, other kinds are false.  The numeric parse itself lives outside the
reviewed sources and is supplied by `Env.numericOk`. -/
def isNumericTest (env : Env) : CondVar → Bool
  | .standard v => ((env.stdVar v).map fun s => env.numericOk s).getD false
  | .number v =>
    match env.numVar v with
    | some (.typed _) => true
    | _ => false
  | _ => false

/-- The is-uncertain-date test for one listed date variable. -/
def isUncertainTest (env : Env) (v : String) : Bool :=
  ((env.dateVar v).map fun d => d.approximate).getD false

/-- The locator test for one listed locator kind. -/
def locatorTest (env : Env) (l : String) : Bool :=
  (env.locatorKind.map fun k => k == l).getD false

/-- The position test for one listed position. -/
def positionTest (env : Env) : TestPosition → Bool
  | .first => env.isFirst
  | .subsequent => !env.isFirst
  | .ibid => env.ibid == .ibid
  | .ibidWithLocator => env.ibid.isIbidWithLocator
  | .nearNote => env.isNearNote

/-- The entry-type test for one listed type. -/
def typeTest (env : Env) (t : String) : Bool := env.matchesType t

/-- The variable-presence test for one listed variable (`BranchConditionIter`,
the variable arm): standard variables test non-blank, number and date
variables test mere presence, name variables test a non-empty name list. -/
def presenceTest (env : Env) : CondVar → Bool
  | .standard s => ((env.stdVar s).map fun v => !v.data.all Char.isWhitespace).getD false
  | .number n => (env.numVar n).isSome
  | .date d => (env.dateVar d).isSome
  | .name n => !(env.nameVarCount n == 0)

/-- The cursor over the ordered condition fields (`BranchConditionPos`). -/
inductive BCPos where
  | disambiguate | isNumeric | isUncertainDate | locator | position | typeIs | presentVars
deriving DecidableEq, Repr

/-- Fields still ahead of the cursor (used as a termination measure). -/
def BCPos.rank : BCPos → Nat
  | .disambiguate => 6
  | .isNumeric => 5
  | .isUncertainDate => 4
  | .locator => 3
  | .position => 2
  | .typeIs => 1
  | .presentVars => 0

/-- The mutable state of `BranchConditionIter`: the field cursor and the index
into the current field's value list. -/
structure BCState where
  pos : BCPos
  idx : Nat
deriving DecidableEq, Repr

/-- One step of `BranchConditionIter::next`: yield the next boolean and the
successor state, or finish.  A present field yields one boolean per listed
value; an absent field is skipped without yielding. -/
def bcNext (cond : Cond) (env : Env) : BCState → Option (Bool × BCState)
  | ⟨.disambiguate, idx⟩ =>
    match cond.disambiguate with
    | some d => some (d == env.shouldDisambiguate, ⟨.isNumeric, idx⟩)
    | none => bcNext cond env ⟨.isNumeric, idx⟩
  | ⟨.isNumeric, idx⟩ =>
    match cond.isNumeric with
    | some vars =>
      if h : idx < vars.length then
        some (isNumericTest env (vars.get ⟨idx, h⟩), ⟨.isNumeric, idx + 1⟩)
      else bcNext cond env ⟨.isUncertainDate, 0⟩
    | none => bcNext cond env ⟨.isUncertainDate, 0⟩
  | ⟨.isUncertainDate, idx⟩ =>
    match hf : cond.isUncertainDate with
    | some vars =>
      if h : idx < vars.length then
        some (isUncertainTest env (vars.get ⟨idx, h⟩), ⟨.isUncertainDate, idx + 1⟩)
      else bcNext cond env ⟨.locator, 0⟩
    | none => bcNext cond env ⟨.locator, 0⟩
  | ⟨.locator, idx⟩ =>
    match hf : cond.locator with
    | some locs =>
      if h : idx < locs.length then
        some (locatorTest env (locs.get ⟨idx, h⟩), ⟨.locator, idx + 1⟩)
      else bcNext cond env ⟨.position, 0⟩
    | none => bcNext cond env ⟨.position, 0⟩
  | ⟨.position, idx⟩ =>
    match hf : cond.position with
    | some ps =>
      if h : idx < ps.length then
        some (positionTest env (ps.get ⟨idx, h⟩), ⟨.position, idx + 1⟩)
      else bcNext cond env ⟨.typeIs, 0⟩
    | none => bcNext cond env ⟨.typeIs, 0⟩
  | ⟨.typeIs, idx⟩ =>
    match hf : cond.typeIs with
    | some ts =>
      if h : idx < ts.length then
        some (typeTest env (ts.get ⟨idx, h⟩), ⟨.typeIs, idx + 1⟩)
      else bcNext cond env ⟨.presentVars, 0⟩
    | none => bcNext cond env ⟨.presentVars, 0⟩
  | ⟨.presentVars, idx⟩ =>
    match hf : cond.presentVars with
    | some vars =>
      if h : idx < vars.length then
        some (presenceTest env (vars.get ⟨idx, h⟩), ⟨.presentVars, idx + 1⟩)
      else none
    | none => none
termination_by st => st.pos.rank
decreasing_by all_goals simp [BCPos.rank]

/-- The length of the value list of one condition field (0 when absent). -/
def condFieldLen (cond : Cond) : BCPos → Nat
  | .disambiguate => 0
  | .isNumeric => ((cond.isNumeric.map List.length).getD 0)
  | .isUncertainDate => ((cond.isUncertainDate.map List.length).getD 0)
  | .locator => ((cond.locator.map List.length).getD 0)
  | .position => ((cond.position.map List.length).getD 0)
  | .typeIs => ((cond.typeIs.map List.length).getD 0)
  | .presentVars => ((cond.presentVars.map List.length).getD 0)

/-- One boolean per listed value of an optional condition field; an absent
field contributes nothing. -/
def optBools (f : α → Bool) : Option (List α) → List Bool
  | some xs => xs.map f
  | none => []

/-- The boolean sequence the branch-condition iterator yields from a given
state, written in closed form: the remaining values of the current field, then
one boolean per listed value of each later present field, in the fixed field
order.  The theorem `bcList_iter` below certifies that this is exactly the
sequence obtained by iterating the step function `bcNext`. -/
def bcList (cond : Cond) (env : Env) : BCState → List Bool
  | ⟨.disambiguate, idx⟩ =>
    (match cond.disambiguate with
     | some d => [d == env.shouldDisambiguate]
     | none => []) ++ bcList cond env ⟨.isNumeric, idx⟩
  | ⟨.isNumeric, idx⟩ =>
    (optBools (isNumericTest env) cond.isNumeric).drop idx ++
      bcList cond env ⟨.isUncertainDate, 0⟩
  | ⟨.isUncertainDate, idx⟩ =>
    (optBools (isUncertainTest env) cond.isUncertainDate).drop idx ++
      bcList cond env ⟨.locator, 0⟩
  | ⟨.locator, idx⟩ =>
    (optBools (locatorTest env) cond.locator).drop idx ++
      bcList cond env ⟨.position, 0⟩
  | ⟨.position, idx⟩ =>
    (optBools (positionTest env) cond.position).drop idx ++
      bcList cond env ⟨.typeIs, 0⟩
  | ⟨.typeIs, idx⟩ =>
    (optBools (typeTest env) cond.typeIs).drop idx ++
      bcList cond env ⟨.presentVars, 0⟩
  | ⟨.presentVars, idx⟩ =>
    (optBools (presenceTest env) cond.presentVars).drop idx
termination_by st => st.pos.rank
decreasing_by all_goals simp [BCPos.rank]

/-- The body of `Text::render` once the target resolved to `content`: open the
element region, apply the prefix, open the quote/strip/case scopes, write the
content, close the scopes, apply the suffix and commit (source lines 65–130).
For the hyperlinked standard variables the visible text is the resolved value;
the synthesized link target is presentation metadata outside this model. -/
def textBody (t : TextElem) (content : String) (w : Writing) : Writing :=
  let p := pushElem w ()
  let w := p.1
  let depth := p.2
  let a := applyPre w t.affixes
  let w := a.1
  let affixLoc := a.2
  let w := if t.quotes then pushQuotes w else w
  let w := mayStripPeriods w t.stripPeriods
  let c := pushCase w t.textCase
  let w := c.1
  let cidx := c.2
  let w := pushStr w content
  let w := popCase w cidx
  let w := stopStrippingPeriods w
  let w := if t.quotes then mayPullPunctuation (popQuotes w) else w
  let w := applySuf w t.affixes affixLoc
  commitElem w depth

/-- `Text::render` (source lines 30–131): under the author-only special form a
non-macro Text renders nothing; otherwise the target is resolved (recording
variable usage), an unresolved target renders nothing, and a resolved one
renders through `textBody`. -/
def renderText (env : Env) (t : TextElem) (w : Writing) : Writing :=
  if env.authorOnly then w
  else
    match t.target with
    | .standard v =>
      let w := markVarUsage w (stdNonEmpty (env.stdVar v))
      match env.stdVar v with
      | none => w
      | some s => textBody t s w
    | .number v =>
      let w := markVarUsage w (numNonEmpty (env.numVar v))
      match env.numVar v with
      | none => w
      | some n => textBody t (numToStr n) w
    | .value s => textBody t s w

/-- The state of the delimiter/group assembly loop: the writing state, the
`last_empty` flag, and the pending delimiter region's mark (`loc`). -/
structure RwdState where
  w : Writing
  lastEmpty : Bool
  loc : Option Nat
deriving DecidableEq, Repr

/-- The delimiter phase at the top of each `render_with_delimiter` iteration
(source lines 508–519): when the previous child was non-empty and a delimiter
is configured, commit any still-pending delimiter region, open a new region,
write the delimiter into it and hold it pending. -/
def rwdDelimPhase (delimiter : Option String) (st : RwdState) : RwdState :=
  if st.lastEmpty then st
  else
    match delimiter with
    | none => st
    | some d =>
      let w := match st.loc with
        | some prevLoc => commitElem st.w prevLoc
        | none => st.w
      let p := pushElem w ()
      let w := pushStr p.1 d
      { w := w, lastEmpty := st.lastEmpty, loc := some p.2 }

mutual

/-- The element dispatcher of `render_with_delimiter` / `LayoutRenderingElement`
(source lines 523–531, 805–817), restricted to the embedded element kinds. -/
def renderElem (env : Env) (e : Elem) (w : Writing) : Writing :=
  match e with
  | .text t => renderText env t w
  | .group af delimiter children => renderGroup env af delimiter children w
  | .choose branches otherwise delimiter =>
    renderChoose env delimiter branches otherwise w
termination_by (sizeOf e, 3)
decreasing_by all_goals (simp_wf <;> omega)

/-- `Group::render` (source lines 779–803): open a usage-info scope and a
provisional region, apply the affixes around the delimiter-joined children,
pop the usage info, and discard the whole region exactly when the group
referenced a variable and nothing non-empty came of any variable, macro or
nested group; otherwise commit and report a surviving group upward. -/
def renderGroup (env : Env) (af : Affixes) (delimiter : Option String)
    (children : List Elem) (w : Writing) : Writing :=
  let w := pushUsageInfo w
  let p := pushElem w ()
  let w := p.1
  let idx := p.2
  let a := applyPre w af
  let w := a.1
  let affixLoc := a.2
  let w := renderWithDelimiter env children delimiter w
  let w := applySuf w af affixLoc
  let i := popUsageInfo w
  let info := i.1
  let w := i.2
  if info.hasVars
      && (!info.hasNonEmptyVars && !info.hasUsedMacros && !info.hasNonEmptyGroup)
  then discardElem w idx
  else printedNonEmptyGroup (commitElem w idx)
termination_by (sizeOf children, 2)
decreasing_by all_goals (simp_wf <;> omega)

/-- `Choose::render` (source lines 484–497): branches are tried in document
order; the first whose match policy passes over the flattened condition
booleans renders its children with the Choose's shared delimiter; otherwise
the fallback branch renders the same way, and with no fallback nothing is
written. -/
def renderChoose (env : Env) (delimiter : Option String)
    (branches : List (Cond × List Elem)) (otherwise : Option (List Elem))
    (w : Writing) : Writing :=
  match branches with
  | [] =>
    match otherwise with
    | some children => renderWithDelimiter env children delimiter w
    | none => w
  | (c, children) :: rest =>
    if matchTest c.matchMode (bcList c env ⟨.disambiguate, 0⟩)
    then renderWithDelimiter env children delimiter w
    else renderChoose env delimiter rest otherwise w
termination_by (sizeOf branches + sizeOf otherwise, 2)
decreasing_by all_goals (simp_wf <;> omega)

/-- `render_with_delimiter` (source lines 499–548): run the loop from the
initial state, then resolve any still-pending delimiter region with the final
`last_empty` value. -/
def renderWithDelimiter (env : Env) (children : List Elem)
    (delimiter : Option String) (w : Writing) : Writing :=
  let st := rwdLoop env delimiter children { w := w, lastEmpty := true, loc := none }
  match st.loc with
  | some l => if st.lastEmpty then discardElem st.w l else commitElem st.w l
  | none => st.w
termination_by (sizeOf children, 1)
decreasing_by all_goals (simp_wf <;> omega)

/-- The loop of `render_with_delimiter` over the child sequence. -/
def rwdLoop (env : Env) (delimiter : Option String) (children : List Elem)
    (st : RwdState) : RwdState :=
  match children with
  | [] => st
  | c :: rest => rwdLoop env delimiter rest (rwdStep env delimiter st c)
termination_by (sizeOf children, 0)
decreasing_by all_goals (simp_wf <;> omega)

/-- One iteration of the `render_with_delimiter` loop (source lines 507–539):
the delimiter phase, then a provisional region for the child; an empty child
region is discarded, a non-empty one committed, and `last_empty` updated. -/
def rwdStep (env : Env) (delimiter : Option String) (st : RwdState) (c : Elem) :
    RwdState :=
  let st1 := rwdDelimPhase delimiter st
  let p := pushElem st1.w ()
  let w := p.1
  let pos := p.2
  let w := renderElem env c w
  let le := lastIsEmpty w
  let w := if le then discardElem w pos else commitElem w pos
  { w := w, lastEmpty := le, loc := st1.loc }
termination_by (sizeOf c, 4)
decreasing_by all_goals (simp_wf <;> omega)

end

/-- The names of date parts. -/
inductive DatePartName where
  | year | month | day
deriving DecidableEq, BEq, Repr

/-- Day forms of a date part. -/
inductive DateDayForm where
  | numeric | numericLeadingZeros | ordinal
deriving DecidableEq, Repr

/-- Month forms of a date part. -/
inductive DateMonthForm where
  | numeric | numericLeadingZeros | long | short
deriving DecidableEq, Repr

/-- Long/short forms (years, standard variables). -/
inductive LongShortForm where
  | long | short
deriving DecidableEq, Repr

/-- The strongly-typed form of a date part (`DateStrongAnyForm`). -/
inductive DateStrongAnyForm where
  | day (f : DateDayForm)
  | month (f : DateMonthForm)
  | year (f : LongShortForm)
deriving DecidableEq, Repr

/-- A date part of a Date element: its strong form and the local attributes
the claims exercise. -/
structure DatePartDef where
  form : DateStrongAnyForm
  affixes : Affixes := {}
  textCase : Option Case := none
  stripPeriods : Bool := false
deriving DecidableEq, Repr

/-- The part name, determined by the strong form. -/
def DatePartDef.name (p : DatePartDef) : DatePartName :=
  match p.form with
  | .day _ => .day
  | .month _ => .month
  | .year _ => .year

/-- `OtherTerm::month`: the localized month term for a zero-indexed month,
defined for months 0–11 only. -/
def otherTermMonth (m : Nat) : Option Nat :=
  if m < 12 then some m else none

/-- Zero-padded decimal formatting to a minimum width, with the sign counted
inside the width, exactly like Rust's `{:0w}` for integers. -/
def zeroPad (width : Nat) (n : Int) : String :=
  let mag := toString n.natAbs
  let sign := if n < 0 then "-" else ""
  sign ++ String.mk (List.replicate (width - (mag.length + sign.length)) '0') ++ mag

/-- `render_year_suffix_implicitly` (source lines 473–482): push the resolved
year-suffix variable when the style does not render it as an explicit element
elsewhere. -/
def renderYearSuffixImplicitly (env : Env) (w : Writing) : Writing :=
  if env.rendersYearSuffixImplicitly then
    match env.stdVar .yearSuffix with
    | some s => pushStr w s
    | none => w
  else w

/-- The date-parts masks of a localized date (`DateParts`). -/
inductive DateParts where
  | year | yearMonth | yearMonthDay
deriving DecidableEq, Repr

/-- `render_date_part` (source lines 365–469): resolve the part's value (day
and month are stored zero-indexed and printed one-based; a missing component
renders nothing), then write it in the form selected by the override or the
part — zero-padded, ordinal (suppressed for day 1 when the locale restricts
ordinals to day 1), plain, localized month name with numeral fallback, or
long/short year with era marker and implicit year suffix. -/
def renderDatePart (env : Env) (datePart : DatePartDef) (date : CslDate)
    (over : Option DatePartDef) (w : Writing) : Writing :=
  match (match datePart.name with
         | .day => date.day.map (fun i => (i : Int) + 1)
         | .month => date.month.map (fun i => (i : Int) + 1)
         | .year => some date.year) with
  | none => w
  | some val =>
    let f := pushFormat w ()
    let w := f.1
    let fidx := f.2
    let a := applyPre w datePart.affixes
    let w := a.1
    let affixLoc := a.2
    let w := if datePart.name = DatePartName.month
             then mayStripPeriods w datePart.stripPeriods else w
    let c := pushCase w ((over.bind fun o => o.textCase).or datePart.textCase)
    let w := c.1
    let cidx := c.2
    let form := (over.map fun o => o.form).getD datePart.form
    let w :=
      match form with
      | .day .numericLeadingZeros | .month .numericLeadingZeros =>
        pushStr w (zeroPad 2 val)
      | .day .ordinal =>
        if val ≠ 1 || !env.limitDayOrdinals then
          let gender := (date.month.bind otherTermMonth).bind env.monthGender
          pushStr w (toString val ++ ((env.ordinalLookup val gender).getD ""))
        else
          pushStr w (toString val)
      | .day .numeric | .month .numeric => pushStr w (toString val)
      | .month .long =>
        match (otherTermMonth (val - 1).toNat).bind (fun m => env.termMonth m true) with
        | some monthName => pushStr w monthName
        | none => pushStr w (toString val)
      | .month .short =>
        match (otherTermMonth (val - 1).toNat).bind (fun m => env.termMonth m false) with
        | some monthName => pushStr w monthName
        | none => pushStr w (toString val)
      | .year .short => pushStr w (zeroPad 2 ((Int.tmod val 100).natAbs : Int))
      | .year .long => pushStr w (toString val.natAbs)
    let w :=
      match form with
      | .year _ =>
        let w := if val < 1000 then pushStr w (if val < 0 then "BC" else "AD") else w
        renderYearSuffixImplicitly env w
      | _ => w
    let w := applySuf w datePart.affixes affixLoc
    let w := stopStrippingPeriods w
    let w := popCase w cidx
    popFormat w fidx

/-- The sorting-mode branch of `Date::render` (source lines 270–314): select
the year/month/day flags from the localized date-parts mask or, for an
explicit date, from the part names present; then write the zero-padded year
(followed by the implicit year suffix), month and day, with a missing month or
day component defaulting to zero before padding. -/
def dateRenderSort (localized : Bool) (parts : Option DateParts)
    (dps : List DatePartDef) (date : CslDate) (env : Env) (w : Writing) : Writing :=
  let flags : Bool × Bool × Bool :=
    if localized then
      match parts with
      | some .year => (true, false, false)
      | some .yearMonth => (true, true, false)
      | some .yearMonthDay | none => (true, true, true)
    else
      (dps.any (fun p => p.name == DatePartName.year),
       dps.any (fun p => p.name == DatePartName.month),
       dps.any (fun p => p.name == DatePartName.day))
  let w := if flags.1 then
      renderYearSuffixImplicitly env (pushStr w (zeroPad 4 date.year))
    else w
  let w := if flags.2.1 then
      pushStr w (zeroPad 2 ((date.month.map (fun m => (m : Int) + 1)).getD 0))
    else w
  if flags.2.2 then
    pushStr w (zeroPad 2 ((date.day.map (fun d => (d : Int) + 1)).getD 0))
  else w

/-- A Text element carrying a literal value, with no affixes, quotes, case
transform or period stripping. -/
def valueElem (s : String) : Elem := .text { target := .value s }

/-- A Text element targeting a standard variable, with no affixes, quotes,
case transform or period stripping. -/
def stdTextElem (v : StdVar) : Elem := .text { target := .standard v }

/-- Join a list of character runs with a delimiter between consecutive runs. -/
def joinCh (d : List Char) : List (List Char) → List Char
  | [] => []
  | [x] => x
  | x :: xs => x ++ d ++ joinCh d xs

/-- The unconditional-commit variant of `Group::render`: identical to
`renderGroup` except that the popped usage info is ignored and the group's
region is always committed.  A group is unaffected by the suppression rule
exactly when its render coincides with this variant. -/
def renderGroupCommit (env : Env) (af : Affixes) (delimiter : Option String)
    (children : List Elem) (w : Writing) : Writing :=
  let w := pushUsageInfo w
  let p := pushElem w ()
  let w := p.1
  let idx := p.2
  let a := applyPre w af
  let w := a.1
  let affixLoc := a.2
  let w := renderWithDelimiter env children delimiter w
  let w := applySuf w af affixLoc
  let i := popUsageInfo w
  printedNonEmptyGroup (commitElem i.2 idx)

/-- Whether a branch condition references no variables through its
variable-driven fields. -/
def condVarFree (c : Cond) : Bool :=
  c.isNumeric.isNone && c.isUncertainDate.isNone && c.presentVars.isNone

mutual

/-- Whether an element references no variables: literal Texts, groups of such
elements, and Chooses whose conditions and children are all variable-free. -/
def elemVarFree : Elem → Bool
  | .text t =>
    match t.target with
    | .value _ => true
    | _ => false
  | .group _ _ children => elemsVarFree children
  | .choose branches otherwise _ =>
    branchesVarFree branches &&
      (match otherwise with
       | some children => elemsVarFree children
       | none => true)
termination_by e => (sizeOf e, 1)
decreasing_by all_goals (simp_wf <;> omega)

/-- Whether every element of a child sequence is variable-free. -/
def elemsVarFree : List Elem → Bool
  | [] => true
  | e :: es => elemVarFree e && elemsVarFree es
termination_by es => (sizeOf es, 0)
decreasing_by all_goals (simp_wf <;> omega)

/-- Whether every branch of a Choose is variable-free (condition and
children). -/
def branchesVarFree : List (Cond × List Elem) → Bool
  | [] => true
  | (c, children) :: rest =>
    condVarFree c && elemsVarFree children && branchesVarFree rest
termination_by bs => (sizeOf bs, 0)
decreasing_by all_goals (simp_wf <;> omega)

end

/-- The children of the first branch whose match policy passes, if any:
the dispatch order `Choose::render` follows. -/
def firstMatch (env : Env) : List (Cond × List Elem) → Option (List Elem)
  | [] => none
  | (c, children) :: rest =>
    if matchTest c.matchMode (bcList c env ⟨.disambiguate, 0⟩) then some children
    else firstMatch env rest

/-- The flattened boolean sequence of a branch condition, written directly in
the fixed field order disambiguate, is-numeric, is-uncertain-date, locator,
position, type, variable-presence. -/
def condFlat (cond : Cond) (env : Env) : List Bool :=
  (match cond.disambiguate with
   | some d => [d == env.shouldDisambiguate]
   | none => []) ++
  optBools (isNumericTest env) cond.isNumeric ++
  optBools (isUncertainTest env) cond.isUncertainDate ++
  optBools (locatorTest env) cond.locator ++
  optBools (positionTest env) cond.position ++
  optBools (typeTest env) cond.typeIs ++
  optBools (presenceTest env) cond.presentVars

/-- The variable-presence semantics as the specification words them: a
variable of any kind tests true iff it resolves to a non-blank value (an
all-whitespace or empty value tests false just like an absent one). -/
def claimedPresence (env : Env) : CondVar → Bool
  | .standard s => ((env.stdVar s).map fun v => !v.data.all Char.isWhitespace).getD false
  | .number n =>
    match env.numVar n with
    | some (.typed _) => true
    | some (.str s) => !s.data.all Char.isWhitespace
    | none => false
  | .date d => (env.dateVar d).isSome
  | .name n => !(env.nameVarCount n == 0)

/-- Mark the head accumulator of a usage stack as containing a surviving
nested group when `b` is set (proof artifact for the usage lemmas). -/
def markG (b : Bool) : List UsageInfo → List UsageInfo
  | [] => []
  | u :: us => { u with hasNonEmptyGroup := u.hasNonEmptyGroup || b } :: us

/-- Loop invariant of the delimiter/group assembly loop over literal-value
children (proof artifact): relates the loop state after processing a list of
outputs to the joined non-empty outputs, the pending delimiter region and the
mark stack. -/
def rwdValueInv (w0 : Writing) (d : String) (processed : List String)
    (st : RwdState) : Prop :=
  let ne := (processed.filter fun s => !s.data.isEmpty).map String.data
  st.w.strip = false ∧
  (ne = [] →
    st.w.buf = w0.buf ∧ st.w.marks = w0.marks ∧ st.lastEmpty = true ∧ st.loc = none) ∧
  (ne ≠ [] →
    (st.lastEmpty = true →
      st.w.buf = w0.buf ++ joinCh d.data ne ++ d.data ∧
      st.loc = some (w0.buf ++ joinCh d.data ne).length ∧
      st.w.marks = (w0.buf ++ joinCh d.data ne).length :: w0.marks) ∧
    (st.lastEmpty = false →
      st.w.buf = w0.buf ++ joinCh d.data ne ∧
      ((st.loc = none ∧ st.w.marks = w0.marks) ∨
       (∃ l, st.loc = some l ∧ st.w.marks = l :: w0.marks))))

/-- An environment with all resolvers empty and all signals at their
defaults. -/
def env0 : Env := {}

/-- An empty writing state. -/
def w0 : Writing := {}

/-- An environment resolving exactly the standard variable "title", to "T". -/
def envTitle : Env :=
  { stdVar := fun v => if v = StdVar.other "title" then some "T" else none }

/-- An environment whose number variable "edition" resolves to the blank
literal string. -/
def envBlankNum : Env :=
  { numVar := fun n => if n = "edition" then some (MaybeTypedNum.str "") else none }

/-- A branch condition testing only the presence of the number variable
"edition". -/
def condEdition : Cond := { presentVars := some [CondVar.number "edition"] }

/-- A branch condition that fails under `env0`: it requires the disambiguate
verdict to be true while `env0` reports false. -/
def condFalse : Cond := { disambiguate := some true }

/-- An ordinal-suffix lookup with English suffixes. -/
def ordEnglish : Int → Option Gender → Option String := fun n _ =>
  if n == 1 then some "st" else if n == 2 then some "nd" else some "th"

/-- An environment with the locale flag limiting day ordinals to day 1 set. -/
def envOrdLimited : Env :=
  { limitDayOrdinals := true
    ordinalLookup := ordEnglish }

/-- An environment with English ordinal suffixes and no day-1 limit. -/
def envOrdFree : Env :=
  { limitDayOrdinals := false
    ordinalLookup := ordEnglish }

/-- A day date-part in ordinal form with no local attributes. -/
def dayOrdinalPart : DatePartDef := { form := .day .ordinal }

/-! Projection lemmas for the Output Assembly primitives. -/

@[simp] theorem pushStr_marks (w : Writing) (s : String) : (pushStr w s).marks = w.marks := rfl

@[simp] theorem pushStr_usage (w : Writing) (s : String) : (pushStr w s).usage = w.usage := rfl

@[simp] theorem pushStr_strip (w : Writing) (s : String) : (pushStr w s).strip = w.strip := rfl

@[simp] theorem pushStr_buf (w : Writing) (s : String) :
    (pushStr w s).buf = w.buf ++ (if w.strip then stripDot s.data else s.data) := rfl

@[simp] theorem pushElem_fst_buf (w : Writing) (f : Formatting) :
    (pushElem w f).1.buf = w.buf := rfl

@[simp] theorem pushElem_fst_marks (w : Writing) (f : Formatting) :
    (pushElem w f).1.marks = w.buf.length :: w.marks := rfl

@[simp] theorem pushElem_fst_usage (w : Writing) (f : Formatting) :
    (pushElem w f).1.usage = w.usage := rfl

@[simp] theorem pushElem_fst_strip (w : Writing) (f : Formatting) :
    (pushElem w f).1.strip = w.strip := rfl

@[simp] theorem pushElem_snd (w : Writing) (f : Formatting) :
    (pushElem w f).2 = w.buf.length := rfl

@[simp] theorem commitElem_buf (w : Writing) (m : Nat) : (commitElem w m).buf = w.buf := rfl

@[simp] theorem commitElem_marks (w : Writing) (m : Nat) :
    (commitElem w m).marks = w.marks.tail := rfl

@[simp] theorem commitElem_usage (w : Writing) (m : Nat) :
    (commitElem w m).usage = w.usage := rfl

@[simp] theorem commitElem_strip (w : Writing) (m : Nat) :
    (commitElem w m).strip = w.strip := rfl

@[simp] theorem discardElem_buf (w : Writing) (m : Nat) :
    (discardElem w m).buf = w.buf.take m := rfl

@[simp] theorem discardElem_marks (w : Writing) (m : Nat) :
    (discardElem w m).marks = w.marks.tail := rfl

@[simp] theorem discardElem_usage (w : Writing) (m : Nat) :
    (discardElem w m).usage = w.usage := rfl

@[simp] theorem discardElem_strip (w : Writing) (m : Nat) :
    (discardElem w m).strip = w.strip := rfl

@[simp] theorem applyPre_fst_buf (w : Writing) (a : Affixes) :
    (applyPre w a).1.buf = w.buf ++ (match a.pre with
      | some p => if w.strip then stripDot p.data else p.data
      | none => []) := by
  cases h : a.pre <;> simp [applyPre, h]

@[simp] theorem applyPre_fst_marks (w : Writing) (a : Affixes) :
    (applyPre w a).1.marks = w.marks := by
  cases h : a.pre <;> simp [applyPre, h]

@[simp] theorem applyPre_fst_usage (w : Writing) (a : Affixes) :
    (applyPre w a).1.usage = w.usage := by
  cases h : a.pre <;> simp [applyPre, h]

@[simp] theorem applyPre_fst_strip (w : Writing) (a : Affixes) :
    (applyPre w a).1.strip = w.strip := by
  cases h : a.pre <;> simp [applyPre, h]

@[simp] theorem applySuf_marks (w : Writing) (a : Affixes) (loc : Nat) :
    (applySuf w a loc).marks = w.marks := by
  cases h : a.suf <;> simp [applySuf, h] <;> split <;> simp

@[simp] theorem applySuf_usage (w : Writing) (a : Affixes) (loc : Nat) :
    (applySuf w a loc).usage = w.usage := by
  cases h : a.suf <;> simp [applySuf, h] <;> split <;> simp

@[simp] theorem applySuf_strip (w : Writing) (a : Affixes) (loc : Nat) :
    (applySuf w a loc).strip = w.strip := by
  cases h : a.suf <;> simp [applySuf, h] <;> split <;> simp

@[simp] theorem pushCase_fst_buf (w : Writing) (c : Option Case) :
    (pushCase w c).1.buf = w.buf := rfl

@[simp] theorem pushCase_fst_marks (w : Writing) (c : Option Case) :
    (pushCase w c).1.marks = w.marks := rfl

@[simp] theorem pushCase_fst_usage (w : Writing) (c : Option Case) :
    (pushCase w c).1.usage = w.usage := rfl

@[simp] theorem pushCase_fst_strip (w : Writing) (c : Option Case) :
    (pushCase w c).1.strip = w.strip := rfl

@[simp] theorem popCase_buf (w : Writing) (i : Nat) : (popCase w i).buf = w.buf := rfl

@[simp] theorem popCase_marks (w : Writing) (i : Nat) : (popCase w i).marks = w.marks := rfl

@[simp] theorem popCase_usage (w : Writing) (i : Nat) : (popCase w i).usage = w.usage := rfl

@[simp] theorem popCase_strip (w : Writing) (i : Nat) : (popCase w i).strip = w.strip := rfl

@[simp] theorem pushFormat_fst_buf (w : Writing) (f : Formatting) :
    (pushFormat w f).1.buf = w.buf := rfl

@[simp] theorem pushFormat_fst_marks (w : Writing) (f : Formatting) :
    (pushFormat w f).1.marks = w.marks := rfl

@[simp] theorem pushFormat_fst_usage (w : Writing) (f : Formatting) :
    (pushFormat w f).1.usage = w.usage := rfl

@[simp] theorem pushFormat_fst_strip (w : Writing) (f : Formatting) :
    (pushFormat w f).1.strip = w.strip := rfl

@[simp] theorem popFormat_buf (w : Writing) (i : Nat) : (popFormat w i).buf = w.buf := rfl

@[simp] theorem popFormat_marks (w : Writing) (i : Nat) : (popFormat w i).marks = w.marks := rfl

@[simp] theorem popFormat_usage (w : Writing) (i : Nat) : (popFormat w i).usage = w.usage := rfl

@[simp] theorem popFormat_strip (w : Writing) (i : Nat) : (popFormat w i).strip = w.strip := rfl

@[simp] theorem pushQuotes_buf (w : Writing) : (pushQuotes w).buf = w.buf := rfl

@[simp] theorem pushQuotes_marks (w : Writing) : (pushQuotes w).marks = w.marks := rfl

@[simp] theorem pushQuotes_usage (w : Writing) : (pushQuotes w).usage = w.usage := rfl

@[simp] theorem pushQuotes_strip (w : Writing) : (pushQuotes w).strip = w.strip := rfl

@[simp] theorem popQuotes_buf (w : Writing) : (popQuotes w).buf = w.buf := rfl

@[simp] theorem popQuotes_marks (w : Writing) : (popQuotes w).marks = w.marks := rfl

@[simp] theorem popQuotes_usage (w : Writing) : (popQuotes w).usage = w.usage := rfl

@[simp] theorem popQuotes_strip (w : Writing) : (popQuotes w).strip = w.strip := rfl

@[simp] theorem mayPull_eq (w : Writing) : mayPullPunctuation w = w := rfl

@[simp] theorem mayStrip_buf (w : Writing) (b : Bool) : (mayStripPeriods w b).buf = w.buf := rfl

@[simp] theorem mayStrip_marks (w : Writing) (b : Bool) :
    (mayStripPeriods w b).marks = w.marks := rfl

@[simp] theorem mayStrip_usage (w : Writing) (b : Bool) :
    (mayStripPeriods w b).usage = w.usage := rfl

@[simp] theorem mayStrip_strip (w : Writing) (b : Bool) :
    (mayStripPeriods w b).strip = b := rfl

@[simp] theorem stopStrip_buf (w : Writing) : (stopStrippingPeriods w).buf = w.buf := rfl

@[simp] theorem stopStrip_marks (w : Writing) :
    (stopStrippingPeriods w).marks = w.marks := rfl

@[simp] theorem stopStrip_usage (w : Writing) :
    (stopStrippingPeriods w).usage = w.usage := rfl

@[simp] theorem stopStrip_strip (w : Writing) : (stopStrippingPeriods w).strip = false := rfl

@[simp] theorem pushUsageInfo_buf (w : Writing) : (pushUsageInfo w).buf = w.buf := rfl

@[simp] theorem pushUsageInfo_marks (w : Writing) :
    (pushUsageInfo w).marks = w.marks := rfl

@[simp] theorem pushUsageInfo_usage (w : Writing) :
    (pushUsageInfo w).usage = ({} : UsageInfo) :: w.usage := rfl

@[simp] theorem pushUsageInfo_strip (w : Writing) :
    (pushUsageInfo w).strip = w.strip := rfl

@[simp] theorem popUsageInfo_fst (w : Writing) :
    (popUsageInfo w).1 = w.usage.headD {} := rfl

@[simp] theorem popUsageInfo_snd_buf (w : Writing) :
    (popUsageInfo w).2.buf = w.buf := rfl

@[simp] theorem popUsageInfo_snd_marks (w : Writing) :
    (popUsageInfo w).2.marks = w.marks := rfl

@[simp] theorem popUsageInfo_snd_usage (w : Writing) :
    (popUsageInfo w).2.usage = w.usage.tail := rfl

@[simp] theorem popUsageInfo_snd_strip (w : Writing) :
    (popUsageInfo w).2.strip = w.strip := rfl

@[simp] theorem markVarUsage_buf (w : Writing) (b : Bool) :
    (markVarUsage w b).buf = w.buf := rfl

@[simp] theorem markVarUsage_marks (w : Writing) (b : Bool) :
    (markVarUsage w b).marks = w.marks := rfl

@[simp] theorem markVarUsage_strip (w : Writing) (b : Bool) :
    (markVarUsage w b).strip = w.strip := rfl

@[simp] theorem printedNonEmptyGroup_buf (w : Writing) :
    (printedNonEmptyGroup w).buf = w.buf := rfl

@[simp] theorem printedNonEmptyGroup_marks (w : Writing) :
    (printedNonEmptyGroup w).marks = w.marks := rfl

@[simp] theorem printedNonEmptyGroup_strip (w : Writing) :
    (printedNonEmptyGroup w).strip = w.strip := rfl

/-- Rendering a literal-value Text element appends the value's characters,
pushes and commits one region, leaves the mark/usage stacks as they were and
resets the period-stripping toggle (the element's own strip flag is off). -/
theorem renderElem_value (env : Env) (hao : env.authorOnly = false) (s : String)
    (w : Writing) :
    renderElem env (valueElem s) w =
      { w with buf := w.buf ++ s.data,
               strip := false,
               events := w.events ++ [Ev.push w.buf.length, Ev.write s.data,
                                      Ev.commit w.buf.length] } := by
  simp [renderElem, valueElem, renderText, hao, textBody, pushElem, applyPre, applySuf,
        pushQuotes, popQuotes, mayPullPunctuation, mayStripPeriods, stopStrippingPeriods,
        pushCase, popCase, pushStr, commitElem, stripDot, List.append_assoc]

/-- C2 (counterexample): on children rendering "A", "", "C" with delimiter
", ", the delimiter region opened ahead of the empty child (pushed at mark 1
and filled with ", ") is never discarded — it is committed by the after-loop
resolution, serving as the separator before "C" — contradicting the claim
that the pending delimiter region is discarded when the following child's
region is empty.  The full region-event trace and the final buffer are
computed explicitly. -/
theorem claim_C2_counterexample :
    (renderWithDelimiter env0 (["A", "", "C"].map valueElem) (some ", ") w0).events
      = [Ev.push 0, Ev.push 0, Ev.write ['A'], Ev.commit 0, Ev.commit 0,
         Ev.push 1, Ev.write [',', ' '], Ev.push 3, Ev.push 3, Ev.write [],
         Ev.commit 3, Ev.discard 3, Ev.push 3, Ev.push 3, Ev.write ['C'],
         Ev.commit 3, Ev.commit 3, Ev.commit 1]
    ∧ Ev.commit 1 ∈
        (renderWithDelimiter env0 (["A", "", "C"].map valueElem) (some ", ") w0).events
    ∧ Ev.discard 1 ∉
        (renderWithDelimiter env0 (["A", "", "C"].map valueElem) (some ", ") w0).events
    ∧ (renderWithDelimiter env0 (["A", "", "C"].map valueElem) (some ", ") w0).buf
      = "A, C".data := by
  have htr : (renderWithDelimiter env0 (["A", "", "C"].map valueElem) (some ", ") w0).events
      = [Ev.push 0, Ev.push 0, Ev.write ['A'], Ev.commit 0, Ev.commit 0,
         Ev.push 1, Ev.write [',', ' '], Ev.push 3, Ev.push 3, Ev.write [],
         Ev.commit 3, Ev.discard 3, Ev.push 3, Ev.push 3, Ev.write ['C'],
         Ev.commit 3, Ev.commit 3, Ev.commit 1] := by
    simp [renderWithDelimiter, rwdLoop, rwdStep, rwdDelimPhase, renderElem, renderText,
          valueElem, textBody, pushElem, applyPre, applySuf, pushCase, popCase,
          pushQuotes, popQuotes, mayPullPunctuation, mayStripPeriods, stopStrippingPeriods,
          pushStr, commitElem, discardElem, lastIsEmpty, env0, w0, stripDot]
  refine ⟨htr, by rw [htr]; decide, by rw [htr]; decide, ?_⟩
  simp [renderWithDelimiter, rwdLoop, rwdStep, rwdDelimPhase, renderElem, renderText,
        valueElem, textBody, pushElem, applyPre, applySuf, pushCase, popCase,
        pushQuotes, popQuotes, mayPullPunctuation, mayStripPeriods, stopStrippingPeriods,
        pushStr, commitElem, discardElem, lastIsEmpty, env0, w0, stripDot]

/-- C2 (amended): when a child whose render writes nothing (and restores the
mark stack) is processed, the loop discards the child's provisional region but
retains the pending delimiter region exactly as the delimiter phase left it —
the pending delimiter is not discarded at that point; its text stays in the
buffer and its fate is resolved later (committed when a subsequent child
renders non-empty, discarded by the after-loop resolution otherwise). -/
theorem claim_C2 (env : Env) (d : String) (st : RwdState) (c : Elem)
    (hc : ∀ w, (renderElem env c w).buf = w.buf ∧ (renderElem env c w).marks = w.marks) :
    (rwdStep env (some d) st c).lastEmpty = true
    ∧ (rwdStep env (some d) st c).loc = (rwdDelimPhase (some d) st).loc
    ∧ (rwdStep env (some d) st c).w.buf = (rwdDelimPhase (some d) st).w.buf := by
  obtain ⟨hb, hm⟩ := hc (pushElem (rwdDelimPhase (some d) st).w ()).1
  simp only [rwdStep, pushElem_snd, lastIsEmpty, hb, hm, pushElem_fst_buf,
    pushElem_fst_marks]
  simp [hb, List.take_length]

/-- C2 (amended, witness): the concrete run after child "A": processing the
empty child keeps the delimiter region pending and its text in the buffer. -/
theorem claim_C2_witness :
    (rwdStep env0 (some ", ")
        (rwdLoop env0 (some ", ") [valueElem "A"] ⟨w0, true, none⟩)
        (valueElem "")).lastEmpty = true
    ∧ (rwdStep env0 (some ", ")
        (rwdLoop env0 (some ", ") [valueElem "A"] ⟨w0, true, none⟩)
        (valueElem "")).loc
      = (rwdDelimPhase (some ", ")
          (rwdLoop env0 (some ", ") [valueElem "A"] ⟨w0, true, none⟩)).loc
    ∧ (rwdStep env0 (some ", ")
        (rwdLoop env0 (some ", ") [valueElem "A"] ⟨w0, true, none⟩)
        (valueElem "")).w.buf
      = (rwdDelimPhase (some ", ")
          (rwdLoop env0 (some ", ") [valueElem "A"] ⟨w0, true, none⟩)).w.buf :=
  claim_C2 env0 ", " (rwdLoop env0 (some ", ") [valueElem "A"] ⟨w0, true, none⟩)
    (valueElem "")
    (fun w => by rw [renderElem_value env0 rfl "" w]; simp)

/-- C4: `Choose::render` renders exactly the children of the first branch
whose match policy passes, through the delimiter/group assembly with the
Choose's shared delimiter; if no branch matches, the otherwise-branch (when
present) renders the same way, and with no otherwise-branch the state is
returned unchanged.  Concretely, two failing branches fall through to the
otherwise-branch, and with no otherwise-branch nothing changes. -/
theorem claim_C4 :
    (∀ (env : Env) (delimiter : Option String) (branches : List (Cond × List Elem))
        (otherwise : Option (List Elem)) (w : Writing),
      renderChoose env delimiter branches otherwise w =
        match firstMatch env branches with
        | some children => renderWithDelimiter env children delimiter w
        | none =>
          match otherwise with
          | some children => renderWithDelimiter env children delimiter w
          | none => w)
    ∧ (renderChoose env0 (some ", ")
        [(condFalse, [valueElem "X"]), (condFalse, [valueElem "Y"])]
        (some [valueElem "Z"]) w0).buf = "Z".data
    ∧ renderChoose env0 (some ", ") [(condFalse, [valueElem "X"])] none w0 = w0 := by
  refine ⟨?_, ?_, ?_⟩
  · intro env delimiter branches otherwise w
    induction branches with
    | nil => cases otherwise <;> simp [renderChoose, firstMatch]
    | cons b rest ih =>
      obtain ⟨c, ch⟩ := b
      by_cases h : matchTest c.matchMode (bcList c env ⟨.disambiguate, 0⟩) <;>
        simp [renderChoose, firstMatch, h, ih]
  · simp [renderChoose, matchTest, bcList, condFalse, env0, w0,
          renderWithDelimiter, rwdLoop, rwdStep, rwdDelimPhase, renderElem, renderText,
          valueElem, textBody, pushElem, applyPre, applySuf, pushCase, popCase,
          pushQuotes, popQuotes, mayPullPunctuation, mayStripPeriods,
          stopStrippingPeriods, pushStr, commitElem, discardElem, lastIsEmpty, stripDot]
  · simp [renderChoose, matchTest, bcList, condFalse, env0]

theorem day_ne_month : (DatePartName.day = DatePartName.month) = False :=
  eq_false (by decide)

theorem intToString_one : toString (1 : Int) = "1" := rfl

theorem intToString_two : toString (2 : Int) = "2" := rfl

/-- C7: with the locale flag limiting day ordinals to day 1 set, a day
date-part in ordinal form renders the plain numeral "1" with no suffix for a
day value of 1 (stored zero-indexed as 0), while a day value of 2 (stored 1)
renders "2" followed by its locale ordinal suffix; without the flag every day
value receives its ordinal suffix. -/
theorem claim_C7 :
    (∀ (env : Env) (w : Writing) (y : Int) (m : Option Nat) (ap : Bool),
      env.limitDayOrdinals = true → w.strip = false →
      (renderDatePart env dayOrdinalPart ⟨y, m, some 0, ap⟩ none w).buf
        = w.buf ++ "1".data)
    ∧ (∀ (env : Env) (w : Writing) (y : Int) (m : Option Nat) (ap : Bool),
      env.limitDayOrdinals = true → w.strip = false →
      (renderDatePart env dayOrdinalPart ⟨y, m, some 1, ap⟩ none w).buf
        = w.buf ++ ("2" ++
            ((env.ordinalLookup 2 ((m.bind otherTermMonth).bind env.monthGender)).getD
              "")).data)
    ∧ (∀ (env : Env) (w : Writing) (y : Int) (m : Option Nat) (ap : Bool) (dval : Nat),
      env.limitDayOrdinals = false → w.strip = false →
      (renderDatePart env dayOrdinalPart ⟨y, m, some dval, ap⟩ none w).buf
        = w.buf ++ (toString ((dval : Int) + 1) ++
            ((env.ordinalLookup ((dval : Int) + 1)
                ((m.bind otherTermMonth).bind env.monthGender)).getD "")).data) := by
  refine ⟨?_, ?_, ?_⟩
  · intro env w y m ap hlim hstrip
    simp [renderDatePart, dayOrdinalPart, DatePartDef.name, pushFormat, popFormat,
          applyPre, applySuf, pushCase, popCase, stopStrippingPeriods, pushStr,
          hlim, hstrip, intToString_one, day_ne_month]
  · intro env w y m ap hlim hstrip
    norm_num [renderDatePart, dayOrdinalPart, DatePartDef.name, pushFormat, popFormat,
          applyPre, applySuf, pushCase, popCase, stopStrippingPeriods, pushStr,
          hlim, hstrip, intToString_two, day_ne_month]
  · intro env w y m ap dval hlim hstrip
    simp [renderDatePart, dayOrdinalPart, DatePartDef.name, pushFormat, popFormat,
          applyPre, applySuf, pushCase, popCase, stopStrippingPeriods, pushStr,
          hlim, hstrip, day_ne_month]

/-- C7 (witness): concrete instances with English ordinal suffixes — with the
day-1 limit set, stored day 0 renders "1" and stored day 1 renders "2nd";
without the limit, stored day 0 renders "1st". -/
theorem claim_C7_witness :
    (renderDatePart envOrdLimited dayOrdinalPart ⟨2024, some 0, some 0, false⟩ none
        w0).buf = "1".data
    ∧ (renderDatePart envOrdLimited dayOrdinalPart ⟨2024, some 0, some 1, false⟩ none
        w0).buf = "2nd".data
    ∧ (renderDatePart envOrdFree dayOrdinalPart ⟨2024, some 0, some 0, false⟩ none
        w0).buf = "1st".data := by
  refine ⟨?_, ?_, ?_⟩
  · have h := claim_C7.1 envOrdLimited w0 2024 (some 0) false rfl rfl
    rw [h]; simp [w0]
  · have h := claim_C7.2.1 envOrdLimited w0 2024 (some 0) false rfl rfl
    rw [h]; simp [w0, envOrdLimited, ordEnglish]
  · have h := claim_C7.2.2 envOrdFree w0 2024 (some 0) false (0 : Nat) rfl rfl
    rw [h]; simp [w0, envOrdFree, ordEnglish, intToString_one]

/-- C8: in sort mode a date renders zero-padded digits for exactly the parts
the active date-parts mask selects, with no delimiters and no localization:
the year mask yields only the four year digits, year+month adds the two month
digits (stored zero-indexed, printed one-based), year+month+day adds the two
day digits; concretely year 2020 with zero-indexed month 0 and day 14 under
the full mask renders the 8-digit string "20200115". -/
theorem claim_C8 :
    (∀ (env : Env) (w : Writing) (y : Int) (m d : Nat) (ap : Bool),
      env.rendersYearSuffixImplicitly = false → w.strip = false →
      (dateRenderSort true (some .year) [] ⟨y, some m, some d, ap⟩ env w).buf
        = w.buf ++ (zeroPad 4 y).data
      ∧ (dateRenderSort true (some .yearMonth) [] ⟨y, some m, some d, ap⟩ env w).buf
        = w.buf ++ (zeroPad 4 y).data ++ (zeroPad 2 ((m : Int) + 1)).data
      ∧ (dateRenderSort true (some .yearMonthDay) [] ⟨y, some m, some d, ap⟩ env w).buf
        = w.buf ++ (zeroPad 4 y).data ++ (zeroPad 2 ((m : Int) + 1)).data
            ++ (zeroPad 2 ((d : Int) + 1)).data)
    ∧ (dateRenderSort true (some .yearMonthDay) [] ⟨2020, some 0, some 14, false⟩
        env0 w0).buf = "20200115".data := by
  constructor
  · intro env w y m d ap hys hstrip
    refine ⟨?_, ?_, ?_⟩ <;>
      simp [dateRenderSort, renderYearSuffixImplicitly, pushStr, hys, hstrip]
  · decide

/-- C9: in sort mode, when the mask selects the month or day but the resolved
date lacks that component, the missing part still renders as "00" (the absent
component defaults to zero before zero-padding), keeping the fixed width. -/
theorem claim_C9 :
    (∀ (env : Env) (w : Writing) (y : Int) (ap : Bool),
      env.rendersYearSuffixImplicitly = false → w.strip = false →
      (dateRenderSort true (some .yearMonthDay) [] ⟨y, none, none, ap⟩ env w).buf
        = w.buf ++ (zeroPad 4 y).data ++ "00".data ++ "00".data)
    ∧ (∀ (env : Env) (w : Writing) (y : Int) (m : Nat) (ap : Bool),
      env.rendersYearSuffixImplicitly = false → w.strip = false →
      (dateRenderSort true (some .yearMonthDay) [] ⟨y, some m, none, ap⟩ env w).buf
        = w.buf ++ (zeroPad 4 y).data ++ (zeroPad 2 ((m : Int) + 1)).data
            ++ "00".data) := by
  constructor
  · intro env w y ap hys hstrip
    simp [dateRenderSort, renderYearSuffixImplicitly, pushStr, hys, hstrip]
    decide
  · intro env w y m ap hys hstrip
    simp [dateRenderSort, renderYearSuffixImplicitly, pushStr, hys, hstrip]
    decide

/-- C8 (witness): the general mask equations instantiated at year 2020,
zero-indexed month 0 and day 14 in an empty context. -/
theorem claim_C8_witness :
    (dateRenderSort true (some .year) [] ⟨2020, some 0, some 14, false⟩ env0 w0).buf
      = w0.buf ++ (zeroPad 4 2020).data
    ∧ (dateRenderSort true (some .yearMonth) [] ⟨2020, some 0, some 14, false⟩
        env0 w0).buf
      = w0.buf ++ (zeroPad 4 2020).data ++ (zeroPad 2 ((0 : Int) + 1)).data
    ∧ (dateRenderSort true (some .yearMonthDay) [] ⟨2020, some 0, some 14, false⟩
        env0 w0).buf
      = w0.buf ++ (zeroPad 4 2020).data ++ (zeroPad 2 ((0 : Int) + 1)).data
        ++ (zeroPad 2 ((14 : Int) + 1)).data :=
  claim_C8.1 env0 w0 2020 0 14 false rfl rfl

/-- C9 (witness): the missing-component equations instantiated at year 33 with
no month and day, and at month 8 with no day. -/
theorem claim_C9_witness :
    (dateRenderSort true (some .yearMonthDay) [] ⟨33, none, none, false⟩ env0 w0).buf
      = w0.buf ++ (zeroPad 4 33).data ++ "00".data ++ "00".data
    ∧ (dateRenderSort true (some .yearMonthDay) [] ⟨33, some 8, none, false⟩
        env0 w0).buf
      = w0.buf ++ (zeroPad 4 33).data ++ (zeroPad 2 ((8 : Int) + 1)).data
        ++ "00".data :=
  ⟨claim_C9.1 env0 w0 33 false rfl rfl, claim_C9.2 env0 w0 33 8 false rfl rfl⟩

/-- Dropping past the end of a mapped list leaves nothing. -/
theorem dropLenLe {α : Type} (xs : List α) (idx : Nat) (h : ¬ idx < xs.length)
    (f : α → Bool) : (xs.map f).drop idx = [] := by
  apply List.drop_eq_nil_of_le
  simp only [List.length_map]
  omega

/-- The flat list `bcList` is exactly the sequence obtained by iterating the
step function `bcNext` of the branch-condition iterator. -/
theorem bcList_iter (cond : Cond) (env : Env) (st : BCState) :
    bcList cond env st =
      (match bcNext cond env st with
       | none => []
       | some (b, st') => b :: bcList cond env st') := by
  obtain ⟨pos, idx⟩ := st
  cases pos with
  | disambiguate =>
    rw [bcNext.eq_def]
    cases hd : cond.disambiguate with
    | none =>
      simp only [hd]
      have e0 : bcList cond env ⟨BCPos.disambiguate, idx⟩
          = bcList cond env ⟨BCPos.isNumeric, idx⟩ := by
        rw [bcList.eq_def]; simp [hd]
      rw [e0]
      exact bcList_iter cond env ⟨.isNumeric, idx⟩
    | some d =>
      simp only [hd]
      rw [bcList.eq_def]
      simp [hd]
  | isNumeric =>
    rw [bcNext.eq_def]
    cases hn : cond.isNumeric with
    | none =>
      simp only [hn]
      have e0 : bcList cond env ⟨BCPos.isNumeric, idx⟩
          = bcList cond env ⟨BCPos.isUncertainDate, 0⟩ := by
        rw [bcList.eq_def]; simp [hn, optBools]
      rw [e0]
      exact bcList_iter cond env ⟨.isUncertainDate, 0⟩
    | some vars =>
      simp only [hn]
      by_cases h : idx < vars.length
      · simp only [dif_pos h]
        have e1 : bcList cond env ⟨BCPos.isNumeric, idx + 1⟩
            = (optBools (isNumericTest env) cond.isNumeric).drop (idx + 1) ++
              bcList cond env ⟨BCPos.isUncertainDate, 0⟩ := by
          rw [bcList.eq_def]
        rw [bcList.eq_def, e1, hn]
        simp only [optBools]
        rw [@List.drop_eq_getElem_cons _ idx (vars.map (isNumericTest env))
              (by simpa using h)]
        simp
      · simp only [dif_neg h]
        have e0 : bcList cond env ⟨BCPos.isNumeric, idx⟩
            = bcList cond env ⟨BCPos.isUncertainDate, 0⟩ := by
          rw [bcList.eq_def, hn]
          simp [optBools, dropLenLe _ _ h]
        rw [e0]
        exact bcList_iter cond env ⟨.isUncertainDate, 0⟩
  | isUncertainDate =>
    rw [bcNext.eq_def]
    cases hn : cond.isUncertainDate with
    | none =>
      simp only [hn]
      have e0 : bcList cond env ⟨BCPos.isUncertainDate, idx⟩
          = bcList cond env ⟨BCPos.locator, 0⟩ := by
        rw [bcList.eq_def]; simp [hn, optBools]
      rw [e0]
      exact bcList_iter cond env ⟨.locator, 0⟩
    | some vars =>
      simp only [hn]
      by_cases h : idx < vars.length
      · simp only [dif_pos h]
        have e1 : bcList cond env ⟨BCPos.isUncertainDate, idx + 1⟩
            = (optBools (isUncertainTest env) cond.isUncertainDate).drop (idx + 1) ++
              bcList cond env ⟨BCPos.locator, 0⟩ := by
          rw [bcList.eq_def]
        rw [bcList.eq_def, e1, hn]
        simp only [optBools]
        rw [@List.drop_eq_getElem_cons _ idx (vars.map (isUncertainTest env))
              (by simpa using h)]
        simp
      · simp only [dif_neg h]
        have e0 : bcList cond env ⟨BCPos.isUncertainDate, idx⟩
            = bcList cond env ⟨BCPos.locator, 0⟩ := by
          rw [bcList.eq_def, hn]
          simp [optBools, dropLenLe _ _ h]
        rw [e0]
        exact bcList_iter cond env ⟨.locator, 0⟩
  | locator =>
    rw [bcNext.eq_def]
    cases hn : cond.locator with
    | none =>
      simp only [hn]
      have e0 : bcList cond env ⟨BCPos.locator, idx⟩
          = bcList cond env ⟨BCPos.position, 0⟩ := by
        rw [bcList.eq_def]; simp [hn, optBools]
      rw [e0]
      exact bcList_iter cond env ⟨.position, 0⟩
    | some locs =>
      simp only [hn]
      by_cases h : idx < locs.length
      · simp only [dif_pos h]
        have e1 : bcList cond env ⟨BCPos.locator, idx + 1⟩
            = (optBools (locatorTest env) cond.locator).drop (idx + 1) ++
              bcList cond env ⟨BCPos.position, 0⟩ := by
          rw [bcList.eq_def]
        rw [bcList.eq_def, e1, hn]
        simp only [optBools]
        rw [@List.drop_eq_getElem_cons _ idx (locs.map (locatorTest env))
              (by simpa using h)]
        simp
      · simp only [dif_neg h]
        have e0 : bcList cond env ⟨BCPos.locator, idx⟩
            = bcList cond env ⟨BCPos.position, 0⟩ := by
          rw [bcList.eq_def, hn]
          simp [optBools, dropLenLe _ _ h]
        rw [e0]
        exact bcList_iter cond env ⟨.position, 0⟩
  | position =>
    rw [bcNext.eq_def]
    cases hn : cond.position with
    | none =>
      simp only [hn]
      have e0 : bcList cond env ⟨BCPos.position, idx⟩
          = bcList cond env ⟨BCPos.typeIs, 0⟩ := by
        rw [bcList.eq_def]; simp [hn, optBools]
      rw [e0]
      exact bcList_iter cond env ⟨.typeIs, 0⟩
    | some ps =>
      simp only [hn]
      by_cases h : idx < ps.length
      · simp only [dif_pos h]
        have e1 : bcList cond env ⟨BCPos.position, idx + 1⟩
            = (optBools (positionTest env) cond.position).drop (idx + 1) ++
              bcList cond env ⟨BCPos.typeIs, 0⟩ := by
          rw [bcList.eq_def]
        rw [bcList.eq_def, e1, hn]
        simp only [optBools]
        rw [@List.drop_eq_getElem_cons _ idx (ps.map (positionTest env))
              (by simpa using h)]
        simp
      · simp only [dif_neg h]
        have e0 : bcList cond env ⟨BCPos.position, idx⟩
            = bcList cond env ⟨BCPos.typeIs, 0⟩ := by
          rw [bcList.eq_def, hn]
          simp [optBools, dropLenLe _ _ h]
        rw [e0]
        exact bcList_iter cond env ⟨.typeIs, 0⟩
  | typeIs =>
    rw [bcNext.eq_def]
    cases hn : cond.typeIs with
    | none =>
      simp only [hn]
      have e0 : bcList cond env ⟨BCPos.typeIs, idx⟩
          = bcList cond env ⟨BCPos.presentVars, 0⟩ := by
        rw [bcList.eq_def]; simp [hn, optBools]
      rw [e0]
      exact bcList_iter cond env ⟨.presentVars, 0⟩
    | some ts =>
      simp only [hn]
      by_cases h : idx < ts.length
      · simp only [dif_pos h]
        have e1 : bcList cond env ⟨BCPos.typeIs, idx + 1⟩
            = (optBools (typeTest env) cond.typeIs).drop (idx + 1) ++
              bcList cond env ⟨BCPos.presentVars, 0⟩ := by
          rw [bcList.eq_def]
        rw [bcList.eq_def, e1, hn]
        simp only [optBools]
        rw [@List.drop_eq_getElem_cons _ idx (ts.map (typeTest env))
              (by simpa using h)]
        simp
      · simp only [dif_neg h]
        have e0 : bcList cond env ⟨BCPos.typeIs, idx⟩
            = bcList cond env ⟨BCPos.presentVars, 0⟩ := by
          rw [bcList.eq_def, hn]
          simp [optBools, dropLenLe _ _ h]
        rw [e0]
        exact bcList_iter cond env ⟨.presentVars, 0⟩
  | presentVars =>
    rw [bcNext.eq_def]
    cases hn : cond.presentVars with
    | none =>
      simp only [hn]
      rw [bcList.eq_def]
      simp [hn, optBools]
    | some vars =>
      simp only [hn]
      by_cases h : idx < vars.length
      · simp only [dif_pos h]
        have e1 : bcList cond env ⟨BCPos.presentVars, idx + 1⟩
            = (optBools (presenceTest env) cond.presentVars).drop (idx + 1) := by
          rw [bcList.eq_def]
        rw [bcList.eq_def, e1, hn]
        simp only [optBools]
        rw [@List.drop_eq_getElem_cons _ idx (vars.map (presenceTest env))
              (by simpa using h)]
        simp
      · simp only [dif_neg h]
        rw [bcList.eq_def, hn]
        simp [optBools, dropLenLe _ _ h]
termination_by st.pos.rank
decreasing_by all_goals simp [BCPos.rank]

/-- C5: the branch-condition iterator (iterated through its step function
`bcNext`) yields its booleans strictly in the fixed field order disambiguate,
is-numeric, is-uncertain-date, locator, position, type, variable-presence —
exactly one boolean per listed value of each present field, and nothing for a
field absent from the branch: from the initial state the collected sequence is
precisely the in-order flattening `condFlat`. -/
theorem claim_C5 (cond : Cond) (env : Env) :
    (∀ st, bcList cond env st =
      (match bcNext cond env st with
       | none => []
       | some (b, st') => b :: bcList cond env st'))
    ∧ bcList cond env ⟨.disambiguate, 0⟩ = condFlat cond env := by
  refine ⟨bcList_iter cond env, ?_⟩
  cases hd : cond.disambiguate <;>
    simp [bcList, condFlat, hd, List.append_assoc]

/-- C6 (counterexample): a number variable that resolves to the blank literal
string "" yields true from the variable-presence test — the code tests mere
presence (`is_some`) for number variables — whereas the claim ("a variable of
any kind that resolves to a blank value tests false just like an absent one",
formalized by `claimedPresence`) demands false; the full iterator run yields
`[true]` for a branch listing only that variable. -/
theorem claim_C6_counterexample :
    presenceTest envBlankNum (.number "edition") = true
    ∧ claimedPresence envBlankNum (.number "edition") = false
    ∧ bcList condEdition envBlankNum ⟨.disambiguate, 0⟩ = [true] := by
  refine ⟨by decide, by decide, ?_⟩
  simp [bcList, condEdition, envBlankNum, optBools, presenceTest]

/-- C6 (amended): the boolean yielded for each variable listed in a branch's
variable-presence condition is: for a standard variable, true iff it resolves
to a non-blank value; for a number or date variable, true iff it resolves at
all (a number variable resolving to a blank string still tests true); for a
name variable, true iff its name list is non-empty. -/
theorem claim_C6 :
    (∀ (env : Env) (vars : List CondVar),
      bcList { presentVars := some vars } env ⟨.disambiguate, 0⟩
        = vars.map (presenceTest env))
    ∧ (∀ (env : Env) (v : CondVar),
      presenceTest env v =
        match v with
        | .standard s =>
          ((env.stdVar s).map fun val => !val.data.all Char.isWhitespace).getD false
        | .number n => (env.numVar n).isSome
        | .date d => (env.dateVar d).isSome
        | .name n => !(env.nameVarCount n == 0)) := by
  constructor
  · intro env vars
    simp [bcList, optBools]
  · intro env v
    cases v <;> rfl

theorem joinCh_append_singleton (d : List Char) (ne : List (List Char)) (z : List Char) :
    joinCh d (ne ++ [z]) = if ne = [] then z else joinCh d ne ++ d ++ z := by
  induction ne with
  | nil => simp [joinCh]
  | cons a as ih =>
    cases as with
    | nil => simp [joinCh]
    | cons b bs =>
      have ih2 : joinCh d (b :: (bs ++ [z])) = joinCh d (b :: bs) ++ d ++ z := by
        have h := ih
        simp only [List.cons_append] at h
        rw [h]
        simp
      simp only [List.cons_append, joinCh, List.append_eq]
      rw [ih2]
      simp [List.append_assoc]

/-- Projections of one loop iteration on a literal-value child: the pending
delimiter register is whatever the delimiter phase left, the child's region is
committed or discarded by the value's emptiness, and the mark stack returns to
the delimiter phase's. -/
theorem rwdStep_value (env : Env) (hao : env.authorOnly = false) (d : Option String)
    (st : RwdState) (s : String) :
    (rwdStep env d st (valueElem s)).loc = (rwdDelimPhase d st).loc
    ∧ (rwdStep env d st (valueElem s)).w.strip = false
    ∧ (rwdStep env d st (valueElem s)).w.marks = (rwdDelimPhase d st).w.marks
    ∧ (s.data = [] →
        (rwdStep env d st (valueElem s)).lastEmpty = true
        ∧ (rwdStep env d st (valueElem s)).w.buf = (rwdDelimPhase d st).w.buf)
    ∧ (s.data ≠ [] →
        (rwdStep env d st (valueElem s)).lastEmpty = false
        ∧ (rwdStep env d st (valueElem s)).w.buf
          = (rwdDelimPhase d st).w.buf ++ s.data) := by
  have hren := renderElem_value env hao s (pushElem (rwdDelimPhase d st).w ()).1
  by_cases hs : s.data = []
  · simp only [rwdStep, hren, hs, pushElem_snd, pushElem_fst_buf, pushElem_fst_marks,
      lastIsEmpty, List.append_nil]
    simp [List.take_length]
  · have hdlen : s.data.length ≠ 0 := fun hc => hs (List.length_eq_zero.mp hc)
    have hlen : ¬ s.length = 0 := hdlen
    simp only [rwdStep, hren, pushElem_snd, pushElem_fst_buf, pushElem_fst_marks,
      lastIsEmpty, List.length_append]
    have hbe : ((rwdDelimPhase d st).w.buf.length + s.data.length
        == (rwdDelimPhase d st).w.buf.length) = false := by
      simp only [beq_eq_false_iff_ne, ne_eq]
      omega
    simp [hbe, hs, hlen]

/-- Projections of the delimiter phase when the previous child was non-empty:
a fresh delimiter region is opened at the current end of the buffer and the
delimiter is written into it. -/
theorem rwdDelimPhase_proj (d : String) (st : RwdState)
    (hLE : st.lastEmpty = false) (hstrip : st.w.strip = false) :
    (rwdDelimPhase (some d) st).loc = some st.w.buf.length
    ∧ (rwdDelimPhase (some d) st).lastEmpty = false
    ∧ (rwdDelimPhase (some d) st).w.strip = false
    ∧ (rwdDelimPhase (some d) st).w.buf = st.w.buf ++ d.data
    ∧ (rwdDelimPhase (some d) st).w.marks
      = st.w.buf.length :: (match st.loc with
          | some _ => st.w.marks.tail
          | none => st.w.marks) := by
  cases hloc : st.loc <;>
    simp [rwdDelimPhase, hLE, hloc, pushStr, pushElem, commitElem, hstrip]

/-- The delimiter phase is the identity when the previous child was empty. -/
theorem rwdDelimPhase_empty (d : Option String) (st : RwdState)
    (hLE : st.lastEmpty = true) : rwdDelimPhase d st = st := by
  simp [rwdDelimPhase, hLE]

/-- One loop iteration on a literal-value child preserves the value-children
loop invariant. -/
theorem rwdValueInv_step (env : Env) (hao : env.authorOnly = false)
    (w0 : Writing) (d : String) (processed : List String) (s : String)
    (st : RwdState) (h : rwdValueInv w0 d processed st) :
    rwdValueInv w0 d (processed ++ [s]) (rwdStep env (some d) st (valueElem s)) := by
  obtain ⟨hstrip, hemp, hne⟩ := h
  obtain ⟨hloc', hstrip', hmarks', hcE, hcN⟩ := rwdStep_value env hao (some d) st s
  by_cases hs : s.data = []
  · -- the new child contributes nothing: processed outputs are unchanged
    have hfe : ((processed ++ [s]).filter fun t => !t.data.isEmpty).map String.data
        = (processed.filter fun t => !t.data.isEmpty).map String.data := by
      simp [List.filter_append, List.isEmpty_iff, hs]
    by_cases h0 : (processed.filter fun t => !t.data.isEmpty).map String.data = []
    · -- nothing non-empty yet: the delimiter phase is inert and the state repeats
      obtain ⟨hb, hm, hle, hl⟩ := hemp h0
      have hid := rwdDelimPhase_empty (some d) st hle
      refine ⟨hstrip', ?_, ?_⟩
      · intro _
        obtain ⟨hle', hb'⟩ := hcE hs
        rw [hfe] at *
        exact ⟨by rw [hb', hid, hb], by rw [hmarks', hid, hm], hle',
               by rw [hloc', hid, hl]⟩
      · intro hcontra
        rw [hfe] at hcontra
        exact absurd h0 hcontra
    · -- some non-empty output exists already
      refine ⟨hstrip', ?_, ?_⟩
      · intro hcontra
        rw [hfe] at hcontra
        exact absurd hcontra h0
      · intro _
        obtain ⟨hle', hb'⟩ := hcE hs
        cases hLE : st.lastEmpty with
        | true =>
          obtain ⟨hb, hl, hm⟩ := (hne h0).1 hLE
          have hid := rwdDelimPhase_empty (some d) st hLE
          constructor
          · intro _
            rw [hfe]
            exact ⟨by rw [hb', hid, hb], by rw [hloc', hid, hl],
                   by rw [hmarks', hid, hm]⟩
          · intro hfalse
            rw [hle'] at hfalse
            exact absurd hfalse (by simp)
        | false =>
          obtain ⟨hb, hrest⟩ := (hne h0).2 hLE
          obtain ⟨hl1, _, _, hb1, hm1⟩ := rwdDelimPhase_proj d st hLE hstrip
          constructor
          · intro _
            rw [hfe]
            refine ⟨by rw [hb', hb1, hb], ?_, ?_⟩
            · rw [hloc', hl1, hb]
            · rw [hmarks', hm1, hb]
              rcases hrest with ⟨hln, hmn⟩ | ⟨l, hls, hmn⟩
              · simp [hln, hmn]
              · simp [hls, hmn]
          · intro hfalse
            rw [hle'] at hfalse
            exact absurd hfalse (by simp)
  · -- the new child contributes its value
    have hfe : ((processed ++ [s]).filter fun t => !t.data.isEmpty).map String.data
        = ((processed.filter fun t => !t.data.isEmpty).map String.data) ++ [s.data] := by
      simp [List.filter_append, List.isEmpty_iff, hs]
    obtain ⟨hle', hb'⟩ := hcN hs
    by_cases h0 : (processed.filter fun t => !t.data.isEmpty).map String.data = []
    · -- first non-empty child: no delimiter phase, plain append
      obtain ⟨hb, hm, hle, hl⟩ := hemp h0
      have hid := rwdDelimPhase_empty (some d) st hle
      refine ⟨hstrip', ?_, ?_⟩
      · intro hcontra
        rw [hfe, h0] at hcontra
        simp at hcontra
      · intro _
        constructor
        · intro hfalse
          rw [hle'] at hfalse
          exact absurd hfalse (by simp)
        · intro _
          rw [hfe, h0]
          refine ⟨?_, Or.inl ⟨by rw [hloc', hid, hl], by rw [hmarks', hid, hm]⟩⟩
          rw [hb', hid, hb]
          simp [joinCh]
    · -- later non-empty child: the delimiter separates it from the joined text
      refine ⟨hstrip', ?_, ?_⟩
      · intro hcontra
        rw [hfe] at hcontra
        simp at hcontra
      · intro _
        constructor
        · intro hfalse
          rw [hle'] at hfalse
          exact absurd hfalse (by simp)
        · intro _
          rw [hfe]
          rw [joinCh_append_singleton, if_neg h0]
          cases hLE : st.lastEmpty with
          | true =>
            obtain ⟨hb, hl, hm⟩ := (hne h0).1 hLE
            have hid := rwdDelimPhase_empty (some d) st hLE
            refine ⟨?_, Or.inr ⟨(w0.buf ++
                joinCh d.data ((processed.filter fun t => !t.data.isEmpty).map
                  String.data)).length,
              by rw [hloc', hid, hl], by rw [hmarks', hid, hm]⟩⟩
            rw [hb', hid, hb]
            simp [List.append_assoc]
          | false =>
            obtain ⟨hb, hrest⟩ := (hne h0).2 hLE
            obtain ⟨hl1, _, _, hb1, hm1⟩ := rwdDelimPhase_proj d st hLE hstrip
            refine ⟨?_, Or.inr ⟨st.w.buf.length, by rw [hloc', hl1], ?_⟩⟩
            · rw [hb', hb1, hb]
              simp [List.append_assoc]
            · rw [hmarks', hm1]
              rcases hrest with ⟨hln, hmn⟩ | ⟨l, hls, hmn⟩
              · simp [hln, hmn, hb]
              · simp [hls, hmn, hb]
  -- leftover: the marks recorded in the non-empty/true case carry the right length

/-- The loop of `render_with_delimiter` preserves the value-children invariant
across any list of literal-value children. -/
theorem rwdValueInv_loop (env : Env) (hao : env.authorOnly = false)
    (w0 : Writing) (d : String) (outs : List String) :
    ∀ (processed : List String) (st : RwdState), rwdValueInv w0 d processed st →
      rwdValueInv w0 d (processed ++ outs)
        (rwdLoop env (some d) (outs.map valueElem) st) := by
  induction outs with
  | nil =>
    intro processed st h
    simpa [rwdLoop] using h
  | cons o os ih =>
    intro processed st h
    have h1 := rwdValueInv_step env hao w0 d processed o st h
    have h2 := ih (processed ++ [o]) _ h1
    simpa [rwdLoop, List.append_assoc] using h2

/-- C1: joining literal-value children with a configured delimiter yields
exactly the non-empty outputs interleaved with single delimiters — never a
leading, trailing, or doubled delimiter adjacent to an empty slot. -/
theorem claim_C1 (outs : List String) (d : String) (env : Env) (w : Writing)
    (hao : env.authorOnly = false) (hstrip : w.strip = false) :
    (renderWithDelimiter env (outs.map valueElem) (some d) w).buf
      = w.buf ++
        joinCh d.data ((outs.filter fun s => !s.data.isEmpty).map String.data) := by
  have hinit : rwdValueInv w d [] ⟨w, true, none⟩ :=
    ⟨hstrip, fun _ => ⟨rfl, rfl, rfl, rfl⟩, fun hcontra => absurd rfl hcontra⟩
  have hfin := rwdValueInv_loop env hao w d outs [] ⟨w, true, none⟩ hinit
  rw [List.nil_append] at hfin
  obtain ⟨hstripF, hemp, hne⟩ := hfin
  simp only [renderWithDelimiter]
  by_cases h0 : (outs.filter fun s => !s.data.isEmpty).map String.data = []
  · obtain ⟨hb, _, _, hl⟩ := hemp h0
    rw [hl, hb, h0]
    simp [joinCh]
  · cases hLE : (rwdLoop env (some d) (outs.map valueElem)
        { w := w, lastEmpty := true, loc := none }).lastEmpty with
    | true =>
      obtain ⟨hb, hl, _⟩ := (hne h0).1 hLE
      rw [hl]
      simp [hLE, hb]
      rw [← List.length_append, ← List.append_assoc, List.take_left]
    | false =>
      obtain ⟨hb, hrest⟩ := (hne h0).2 hLE
      rcases hrest with ⟨hl, _⟩ | ⟨l, hl, _⟩
      · rw [hl, hb]
      · rw [hl]
        simp [hLE, hb]

/-- C1 (witness): children rendering "A", "" and "C" joined with delimiter
", " yield exactly "A, C". -/
theorem claim_C1_witness :
    (renderWithDelimiter env0 (["A", "", "C"].map valueElem) (some ", ") w0).buf
      = "A, C".data := by
  rw [claim_C1 ["A", "", "C"] ", " env0 w0 rfl rfl]
  decide

@[simp] theorem markG_false (us : List UsageInfo) : markG false us = us := by
  cases us <;> simp [markG]

theorem markG_comp (b b' : Bool) (us : List UsageInfo) :
    markG b (markG b' us) = markG (b' || b) us := by
  cases us <;> simp [markG, Bool.or_assoc]

@[simp] theorem rwdDelimPhase_usage (d : Option String) (st : RwdState) :
    (rwdDelimPhase d st).w.usage = st.w.usage := by
  cases hLE : st.lastEmpty <;> simp only [rwdDelimPhase, hLE]
  · cases d with
    | none => rfl
    | some s => cases st.loc <;> simp
  · simp

mutual

/-- A variable-free element leaves every usage accumulator's variable flags
untouched; at most it reports a surviving nested group to the innermost
accumulator. -/
theorem varFree_elem (env : Env) (e : Elem) (he : elemVarFree e = true)
    (w : Writing) : ∃ b, (renderElem env e w).usage = markG b w.usage :=
  match e, he with
  | .text t, he => by
    refine ⟨false, ?_⟩
    cases ht : t.target with
    | value s =>
      by_cases hao : env.authorOnly = true
      · simp [renderElem, renderText, hao]
      · simp only [Bool.not_eq_true] at hao
        simp [renderElem, renderText, hao, ht, textBody, apply_ite]
    | standard v =>
      rw [elemVarFree.eq_def] at he
      simp [ht] at he
    | number v =>
      rw [elemVarFree.eq_def] at he
      simp [ht] at he
  | .group af delimiter children, he => by
    simp only [elemVarFree] at he
    obtain ⟨b, hb⟩ := varFree_rwd env children he delimiter
      (applyPre (pushElem (pushUsageInfo w) ()).1 af).1
    have husage : (applyPre (pushElem (pushUsageInfo w) ()).1 af).1.usage
        = ({} : UsageInfo) :: w.usage := by simp
    rw [husage] at hb
    have hb2 : (renderWithDelimiter env children delimiter
        (applyPre (pushElem (pushUsageInfo w) ()).1 af).1).usage
        = ({ hasNonEmptyGroup := b } : UsageInfo) :: w.usage := by
      rw [hb]
      simp [markG]
    refine ⟨true, ?_⟩
    simp only [renderElem, renderGroup, popUsageInfo_fst, popUsageInfo_snd_usage,
      applySuf_usage, commitElem_usage, hb2, List.headD_cons, List.tail_cons]
    cases hu : w.usage <;> simp [printedNonEmptyGroup, commitElem, markG, hb2, hu]
  | .choose branches otherwise delimiter, he => by
    have he2 : branchesVarFree branches = true ∧
        elemsVarFree (otherwise.getD []) = true := by
      have h := he
      rw [elemVarFree.eq_def] at h
      cases otherwise <;> simp_all [Bool.and_eq_true, elemsVarFree]
    obtain ⟨b, hb⟩ := varFree_choose env delimiter branches otherwise he2.1 he2.2 w
    exact ⟨b, by simpa [renderElem] using hb⟩
termination_by (sizeOf e, 3)
decreasing_by all_goals (simp_wf <;> omega)

/-- A Choose over variable-free branches leaves the usage accumulators'
variable flags untouched. -/
theorem varFree_choose (env : Env) (delimiter : Option String)
    (branches : List (Cond × List Elem)) (otherwise : Option (List Elem))
    (hbr : branchesVarFree branches = true)
    (hoth : elemsVarFree (otherwise.getD []) = true)
    (w : Writing) :
    ∃ b, (renderChoose env delimiter branches otherwise w).usage = markG b w.usage :=
  match branches, hbr with
  | [], _ =>
    match otherwise, hoth with
    | none, _ => ⟨false, by simp [renderChoose]⟩
    | some children, hoth => by
      obtain ⟨b, hb⟩ := varFree_rwd env children (by simpa using hoth) delimiter w
      exact ⟨b, by simpa [renderChoose] using hb⟩
  | (c, children) :: rest, hbr => by
    simp only [branchesVarFree, Bool.and_eq_true] at hbr
    by_cases hm : matchTest c.matchMode (bcList c env ⟨.disambiguate, 0⟩) = true
    · obtain ⟨b, hb⟩ := varFree_rwd env children hbr.1.2 delimiter w
      exact ⟨b, by simpa [renderChoose, hm] using hb⟩
    · simp only [Bool.not_eq_true] at hm
      obtain ⟨b, hb⟩ := varFree_choose env delimiter rest otherwise hbr.2 hoth w
      exact ⟨b, by simpa [renderChoose, hm] using hb⟩
termination_by (sizeOf branches + sizeOf otherwise, 2)
decreasing_by all_goals (simp_wf <;> omega)

/-- Delimiter-joining variable-free children leaves the usage accumulators'
variable flags untouched. -/
theorem varFree_rwd (env : Env) (children : List Elem)
    (hch : elemsVarFree children = true) (delimiter : Option String)
    (w : Writing) :
    ∃ b, (renderWithDelimiter env children delimiter w).usage = markG b w.usage := by
  obtain ⟨b, hb⟩ := varFree_loop env delimiter children hch
    { w := w, lastEmpty := true, loc := none }
  refine ⟨b, ?_⟩
  simp only [renderWithDelimiter]
  cases (rwdLoop env delimiter children { w := w, lastEmpty := true, loc := none }).loc
    with
  | none => exact hb
  | some l =>
    cases (rwdLoop env delimiter children
        { w := w, lastEmpty := true, loc := none }).lastEmpty <;> simpa using hb
termination_by (sizeOf children, 1)
decreasing_by all_goals (simp_wf <;> omega)

/-- The delimiter/group assembly loop over variable-free children leaves the
usage accumulators' variable flags untouched. -/
theorem varFree_loop (env : Env) (delimiter : Option String)
    (children : List Elem) (hch : elemsVarFree children = true) (st : RwdState) :
    ∃ b, (rwdLoop env delimiter children st).w.usage = markG b st.w.usage :=
  match children, hch with
  | [], _ => ⟨false, by simp [rwdLoop]⟩
  | c :: rest, hch => by
    simp only [elemsVarFree, Bool.and_eq_true] at hch
    obtain ⟨b1, h1⟩ := varFree_step env delimiter st c hch.1
    obtain ⟨b2, h2⟩ := varFree_loop env delimiter rest hch.2
      (rwdStep env delimiter st c)
    refine ⟨b1 || b2, ?_⟩
    rw [rwdLoop.eq_def]
    simp only [h2, h1, markG_comp]
termination_by (sizeOf children, 0)
decreasing_by all_goals (simp_wf <;> omega)

/-- One loop iteration on a variable-free child leaves the usage accumulators'
variable flags untouched. -/
theorem varFree_step (env : Env) (delimiter : Option String) (st : RwdState)
    (c : Elem) (he : elemVarFree c = true) :
    ∃ b, (rwdStep env delimiter st c).w.usage = markG b st.w.usage := by
  obtain ⟨b, hb⟩ := varFree_elem env c he
    (pushElem (rwdDelimPhase delimiter st).w ()).1
  refine ⟨b, ?_⟩
  simp only [rwdStep]
  cases lastIsEmpty (renderElem env c (pushElem (rwdDelimPhase delimiter st).w ()).1)
    <;> simpa using hb
termination_by (sizeOf c, 4)
decreasing_by all_goals (simp_wf <;> omega)

end

/-- When the popped usage info shows no variable reference, `Group::render`
takes the commit path. -/
theorem renderGroup_eq_commit_of (env : Env) (af : Affixes)
    (delimiter : Option String) (children : List Elem) (w : Writing)
    (h : ((popUsageInfo (applySuf (renderWithDelimiter env children delimiter
        (applyPre (pushElem (pushUsageInfo w) ()).1 af).1) af
        (applyPre (pushElem (pushUsageInfo w) ()).1 af).2)).1).hasVars = false) :
    renderGroup env af delimiter children w
      = renderGroupCommit env af delimiter children w := by
  simp only [renderGroup, renderGroupCommit]
  rw [h]
  simp

/-- A group whose children are variable-free always takes the commit path —
it is never suppressed by the variable rule. -/
theorem group_varFree_commit (env : Env) (af : Affixes)
    (delimiter : Option String) (children : List Elem) (w : Writing)
    (hch : elemsVarFree children = true) :
    renderGroup env af delimiter children w
      = renderGroupCommit env af delimiter children w := by
  obtain ⟨b, hb⟩ := varFree_rwd env children hch delimiter
    (applyPre (pushElem (pushUsageInfo w) ()).1 af).1
  apply renderGroup_eq_commit_of
  simp only [popUsageInfo_fst, applySuf_usage, hb, applyPre_fst_usage,
    pushElem_fst_usage, pushUsageInfo_usage]
  simp [markG]

/-- C3: a group referencing exactly one absent standard variable and nothing
else renders nothing (its whole region is discarded); the same group with the
variable present renders the resolved content; and a group with zero variable
references is never suppressed — its render coincides with the
unconditional-commit variant. -/
theorem claim_C3 :
    (∀ (env : Env) (w : Writing) (v : StdVar),
      env.authorOnly = false → env.stdVar v = none →
      (renderElem env (.group {} none [stdTextElem v]) w).buf = w.buf)
    ∧ (∀ (env : Env) (w : Writing) (v : StdVar) (s : String),
      env.authorOnly = false → env.stdVar v = some s → s.data ≠ [] →
      (renderElem env (.group {} none [stdTextElem v]) w).buf = w.buf ++ s.data)
    ∧ (∀ (env : Env) (af : Affixes) (delimiter : Option String)
        (children : List Elem) (w : Writing), elemsVarFree children = true →
      renderGroup env af delimiter children w
        = renderGroupCommit env af delimiter children w) := by
  refine ⟨?_, ?_, fun env af delimiter children w hch =>
    group_varFree_commit env af delimiter children w hch⟩
  · intro env w v hao hv
    simp [renderElem, renderGroup, renderWithDelimiter, rwdLoop, rwdStep, rwdDelimPhase,
          renderText, stdTextElem, textBody, pushUsageInfo, popUsageInfo, pushElem,
          applyPre, applySuf, pushCase, popCase, mayStripPeriods, stopStrippingPeriods,
          pushStr, commitElem, discardElem, lastIsEmpty, markVarUsage,
          printedNonEmptyGroup, stdNonEmpty, hao, hv, List.take_length]
  · intro env w v s hao hv hs
    have hse : s.data.isEmpty = false := by
      simpa [List.isEmpty_iff] using hs
    have hlen : ¬ s.length = 0 :=
      fun hc => hs (List.length_eq_zero.mp hc)
    have hbe : (w.buf.length + s.data.length == w.buf.length) = false := by
      simp only [beq_eq_false_iff_ne, ne_eq]
      have : s.data.length ≠ 0 := fun hc => hs (List.length_eq_zero.mp hc)
      omega
    simp [renderElem, renderGroup, renderWithDelimiter, rwdLoop, rwdStep, rwdDelimPhase,
          renderText, stdTextElem, textBody, pushUsageInfo, popUsageInfo, pushElem,
          applyPre, applySuf, pushCase, popCase, mayStripPeriods, stopStrippingPeriods,
          pushStr, commitElem, discardElem, lastIsEmpty, markVarUsage,
          printedNonEmptyGroup, stdNonEmpty, hao, hv, hse, hlen, hbe]

/-- C3 (witness): concretely, a group around the absent variable "title"
leaves the buffer unchanged; with "title" resolving to "T" it renders "T";
and a group of the literal child "x" commits. -/
theorem claim_C3_witness :
    (renderElem env0 (.group {} none [stdTextElem (StdVar.other "title")]) w0).buf
      = w0.buf
    ∧ (renderElem envTitle (.group {} none [stdTextElem (StdVar.other "title")])
        w0).buf = w0.buf ++ "T".data
    ∧ renderGroup env0 {} none [valueElem "x"] w0
      = renderGroupCommit env0 {} none [valueElem "x"] w0 :=
  ⟨claim_C3.1 env0 w0 (StdVar.other "title") rfl rfl,
   claim_C3.2.1 envTitle w0 (StdVar.other "title") "T" rfl (by decide) (by decide),
   claim_C3.2.2 env0 {} none [valueElem "x"] w0
     (by simp [elemsVarFree, elemVarFree, valueElem])⟩

/-- C10: a group that is not suppressed reports a surviving nested group to
the enclosing usage scope even if its committed region is empty: a
variable-free group always commits and sets the enclosing accumulator's
nested-group flag; consequently a group referencing only an absent variable
but directly containing an empty zero-variable group still commits. -/
theorem claim_C10 :
    (∀ (env : Env) (af : Affixes) (delimiter : Option String)
        (children : List Elem) (w : Writing) (u : UsageInfo) (us : List UsageInfo),
      elemsVarFree children = true → w.usage = u :: us →
      (renderGroup env af delimiter children w).usage
        = { u with hasNonEmptyGroup := true } :: us)
    ∧ renderGroup env0 {} none
        [stdTextElem (StdVar.other "title"), .group {} none []] w0
      = renderGroupCommit env0 {} none
          [stdTextElem (StdVar.other "title"), .group {} none []] w0 := by
  constructor
  · intro env af delimiter children w u us hch hu
    obtain ⟨b, hb⟩ := varFree_rwd env children hch delimiter
      (applyPre (pushElem (pushUsageInfo w) ()).1 af).1
    have hb2 : (renderWithDelimiter env children delimiter
        (applyPre (pushElem (pushUsageInfo w) ()).1 af).1).usage
        = ({ hasNonEmptyGroup := b } : UsageInfo) :: (u :: us) := by
      rw [hb]
      simp [markG, hu]
    simp only [renderGroup, popUsageInfo_fst, popUsageInfo_snd_usage, applySuf_usage,
      commitElem_usage, hb2, List.headD_cons, List.tail_cons]
    simp [printedNonEmptyGroup, markG, hb2]
  · simp [renderGroup, renderGroupCommit, renderWithDelimiter, rwdLoop, rwdStep,
          rwdDelimPhase, renderElem, renderText, stdTextElem, textBody, valueElem,
          pushUsageInfo, popUsageInfo, pushElem, applyPre, applySuf, pushCase, popCase,
          mayStripPeriods, stopStrippingPeriods, pushStr, commitElem, discardElem,
          lastIsEmpty, markVarUsage, printedNonEmptyGroup, stdNonEmpty, env0, w0]

/-- C10 (witness): a variable-free group over the literal "x", rendered with
one open enclosing accumulator, marks that accumulator's nested-group flag. -/
theorem claim_C10_witness :
    (renderGroup env0 {} none [valueElem "x"]
        { usage := [({} : UsageInfo)] }).usage
      = [{ hasNonEmptyGroup := true }] :=
  claim_C10.1 env0 {} none [valueElem "x"] { usage := [({} : UsageInfo)] } {} []
    (by simp [elemsVarFree, elemVarFree, valueElem]) rfl

end Hayagriva
